import Mathlib

/-!
Gecko profile version migration (`src/profile-logic/gecko-profile-versioning.js`).

A shallow embedding of the upgrade driver `upgradeGeckoProfileToCurrentVersion`
and of the registry `_upgraders`, followed by theorems about them.

Modelling conventions.

* JavaScript objects that the source mutates in place are passed and returned
  explicitly.  A call yields a `Res`: the state the object is left in, and the
  exception that escaped (if any).  The state is kept in the throwing case as
  well, because an exception leaves the caller's object partially mutated.
* A profile is a tree obtained by decoding JSON, so no two places share an
  object and state passing is exact.
* A JavaScript string that holds the JSON text of a profile (an entry of
  `threads` before format version 5) is represented by the profile it decodes
  to (`ThreadEntry.encoded`); likewise the JSON text of `libs` before version 4
  (`LibsField.encoded`).  `JSON.parse` is then the projection and
  `JSON.stringify` the constructor.
* Numbers are integers.
-/

set_option autoImplicit false

namespace GeckoVersioning

/-! ## Values -/

/-- A JavaScript value as found in a decoded profile: table cells and marker
payloads.  An array carries, besides its elements, the named properties that
were assigned to it (none after decoding). -/
inductive JVal where
  | undefined
  | null
  | bool (b : Bool)
  | num (n : Int)
  | str (s : String)
  | arr (items : List JVal) (props : List (String × JVal))
  | obj (fields : List (String × JVal))

/-- What a `throw` carries: an `Error` with its message, or one of the
built-in errors raised by the language itself (`TypeError`, the `SyntaxError`
of `JSON.parse`), or the out-of-range failure of the string table. -/
inductive Thrown where
  | error (message : String)
  | typeError
  | parseError
  | indexOutOfRange
  deriving DecidableEq, Repr

/-- Result of running mutating code on an object: the state the object is in
afterwards and the exception that escaped, if one did. -/
structure Res (α : Type) where
  state : α
  thrown : Option Thrown

/-- A table in the "schema + rows" encoding. -/
structure Table where
  schema : List (String × Nat)
  data : List (List JVal)

/-- A thread record. `none` stands for an absent field. -/
structure Thread where
  name : String
  processType : Option String
  registerTime : Option JVal
  unregisterTime : Option JVal
  samples : Table
  markers : Table
  stringTable : List String
  other : List (String × JVal)

/-- A library descriptor, before or after the version-4 normalisation.
`none` stands for an absent field. -/
structure Lib where
  start : Int
  name : String
  breakpadId : Option String
  pdbName : Option String
  pdbAge : Option Nat
  pdbSignature : Option String
  debugName : Option String
  path : Option String
  arch : Option String
  debugPath : Option String
  other : List (String × JVal)

/-- The `libs` field: JSON text of an array of descriptors (before version 4),
or the array itself. -/
inductive LibsField where
  | encoded (libs : List Lib)
  | decoded (libs : List Lib)

/-- The `meta` record. `none` stands for an absent field. -/
structure Meta where
  version : Option Nat
  abi : Option String
  shutdownTime : Option JVal
  other : List (String × JVal)

mutual
/-- A profile, root or nested. `processes` and `pausedRanges` are absent
(`none`) in the older formats. -/
inductive Profile where
  | mk (meta : Meta) (libs : LibsField) (threads : List ThreadEntry)
      (processes : Option (List Profile)) (pausedRanges : Option (List JVal))
/-- An entry of `threads`: a thread record, or a string holding the JSON text
of a subprocess profile. -/
inductive ThreadEntry where
  | thread (t : Thread)
  | encoded (p : Profile)
end

namespace Profile

/-- Field `meta`. -/
def meta : Profile → Meta
  | mk m _ _ _ _ => m

/-- Field `libs`. -/
def libs : Profile → LibsField
  | mk _ l _ _ _ => l

/-- Field `threads`. -/
def threads : Profile → List ThreadEntry
  | mk _ _ t _ _ => t

/-- Field `processes`. -/
def processes : Profile → Option (List Profile)
  | mk _ _ _ ps _ => ps

/-- Field `pausedRanges`. -/
def pausedRanges : Profile → Option (List JVal)
  | mk _ _ _ _ r => r

end Profile

/-! ## JavaScript helpers -/

namespace JVal

/-- The conversion to boolean applied by `if (v)`. -/
def truthy : JVal → Bool
  | undefined => false
  | null => false
  | bool b => b
  | num n => n != 0
  | str s => s != ""
  | arr _ _ => true
  | obj _ => true

/-- The read `v.key` of a named property (not an index, not built in) on a
value other than `null` and `undefined`; an absent property reads as
`undefined`. -/
def getProp (key : String) : JVal → JVal
  | obj fields => (fields.lookup key).getD undefined
  | arr _ props => (props.lookup key).getD undefined
  | _ => undefined

end JVal

/-- The assignment `o.key = v` on the property list of an object: an existing
property keeps its place, a new one is added at the end. -/
def setProp (key : String) (v : JVal) : List (String × JVal) → List (String × JVal)
  | [] => [(key, v)]
  | (k, w) :: rest => if k = key then (key, v) :: rest else (k, w) :: setProp key v rest

/-- The read `row[index]` where `index` was read from a schema (`none` when
the schema has no such column): `undefined` outside the row. -/
def rowGet (row : List JVal) : Option Nat → JVal
  | none => JVal.undefined
  | some i => row.getD i JVal.undefined

/-- The assignment `row[index] = v` to a cell that exists. -/
def rowSet (row : List JVal) (index : Option Nat) (v : JVal) : List JVal :=
  match index with
  | none => row
  | some i => row.set i v

/-- The loop `for (const thread of p.threads) body`, for a body that
dereferences a field of a field of `thread` or assigns to a field of `thread`:
either raises `TypeError` when the entry is a string (the module is strict
code).  The entries already visited stay mutated when the loop is left by an
exception. -/
def forEachThread (body : Thread → Res Thread) : List ThreadEntry → Res (List ThreadEntry)
  | [] => ⟨[], none⟩
  | ThreadEntry.encoded p :: rest => ⟨ThreadEntry.encoded p :: rest, some Thrown.typeError⟩
  | ThreadEntry.thread t :: rest =>
    match (body t).thrown with
    | some e => ⟨ThreadEntry.thread (body t).state :: rest, some e⟩
    | none =>
      let r := forEachThread body rest
      ⟨ThreadEntry.thread (body t).state :: r.state, r.thrown⟩

/-! ## String functions used by upgrader 4 -/

/-- `s.lastIndexOf(c)` for a one-character `c`: `-1` when `c` does not occur. -/
def lastIndexOf (s : String) (c : Char) : Int :=
  s.data.enum.foldl (fun acc ic => if ic.2 = c then (ic.1 : Int) else acc) (-1)

/-- `s.substr(start)` for `start ≥ 0`. -/
def substrFrom (s : String) (start : Int) : String :=
  String.mk (s.data.drop start.toNat)

/-- `s.endsWith(suffix)`. -/
def endsWith (s suffix : String) : Bool :=
  suffix.data.isSuffixOf s.data

/-- `s.substr(0, n)`. -/
def substrTo (s : String) (n : Nat) : String :=
  String.mk (s.data.take n)

/-- `s.replace(/[{}-]/g, '')`. -/
def removeBracesAndDashes (s : String) : String :=
  String.mk (s.data.filter (fun c => c != Char.ofNat 123 && c != Char.ofNat 125 && c != '-'))

/-- `s.toUpperCase()` for a `pdbSignature`, which is made of hexadecimal
digits, braces and dashes: the letters `a`-`z` become `A`-`Z`. -/
def toUpperCase (s : String) : String :=
  String.mk (s.data.map Char.toUpper)

/-- The string that `+` appends for `lib.pdbAge`. -/
def ageString : Option Nat → String
  | none => "undefined"
  | some n => toString n

/-! ## The driver's constants -/

/-- The current version of the Gecko profile format. -/
def CURRENT_VERSION : Nat := 9

/-- Profiles without a `meta.version` field are treated as version zero. -/
def UNANNOTATED_VERSION : Nat := 0

/-- The function `_archFromAbi`. -/
def _archFromAbi (abi : Option String) : Option String :=
  if abi = some "x86_64-gcc3" then some "x86_64" else abi

/-! ## Upgrader 4 -/

/-- The callback given to `map` in `convertToVersionFourRecursive`, for a
profile whose `meta.abi` is `abi`.  `TypeError` is raised by
`lib.pdbSignature.replace` and by `lib.debugName.endsWith` on an absent
field. -/
def convertLib (abi : Option String) (lib : Lib) : Except Thrown Lib :=
  let named : Except Thrown (Option String × Option String) :=
    if lib.breakpadId.isSome then
      Except.ok (some (substrFrom lib.name (lastIndexOf lib.name '/' + 1)), lib.breakpadId)
    else
      match lib.pdbSignature with
      | none => Except.error Thrown.typeError
      | some signature =>
        let pdbSig := toUpperCase (removeBracesAndDashes signature)
        Except.ok (lib.pdbName, some (pdbSig ++ ageString lib.pdbAge))
  match named with
  | Except.error e => Except.error e
  | Except.ok (none, _) => Except.error Thrown.typeError
  | Except.ok (some debugName, breakpadId) =>
    Except.ok
      { lib with
        debugName := some debugName
        breakpadId := breakpadId
        pdbName := none
        pdbAge := none
        pdbSignature := none
        path := some lib.name
        name := if endsWith debugName ".pdb" then substrTo debugName (debugName.length - 4)
                else debugName
        arch := _archFromAbi abi
        debugPath := some "" }

/-- The call `.map(lib => ...)`: stops at the first callback that throws. -/
def mapLibs (abi : Option String) : List Lib → Except Thrown (List Lib)
  | [] => Except.ok []
  | lib :: rest =>
    match convertLib abi lib with
    | Except.error e => Except.error e
    | Except.ok lib1 =>
      match mapLibs abi rest with
      | Except.error e => Except.error e
      | Except.ok rest1 => Except.ok (lib1 :: rest1)

/-- The call `.sort((a, b) => a.start - b.start)`; the sort is stable. -/
def sortByStart (libs : List Lib) : List Lib :=
  libs.insertionSort (fun a b => a.start ≤ b.start)

/-- The expression `JSON.parse(p.libs).map(...).sort(...)`.  `JSON.parse`
applied to an array of objects raises `SyntaxError`. -/
def convertLibs (abi : Option String) : LibsField → Except Thrown (List Lib)
  | LibsField.decoded _ => Except.error Thrown.parseError
  | LibsField.encoded raw =>
    match mapLibs abi raw with
    | Except.error e => Except.error e
    | Except.ok libs => Except.ok (sortByStart libs)

/-- The `else` branch of the thread loop of `convertToVersionFourRecursive`. -/
def normalizeThread (thread : Thread) : Thread :=
  if thread.processType.isSome then thread
  else if thread.name = "Content" then
    { thread with processType := some "tab", name := "GeckoMain" }
  else if thread.name = "Plugin" then
    { thread with processType := some "plugin" }
  else
    { thread with processType := some "default" }

mutual
/-- The function `convertToVersionFourRecursive` of `_upgraders[4]`.  `p.libs`
is assigned only once the whole array has been converted, and
`p.meta.version` only after the thread loop. -/
def convertToVersionFourRecursive : Profile → Res Profile
  | Profile.mk m l ts ps pr =>
    match convertLibs m.abi l with
    | Except.error e => ⟨Profile.mk m l ts ps pr, some e⟩
    | Except.ok libs =>
      let r := convertFourThreads ts
      match r.thrown with
      | some e => ⟨Profile.mk m (LibsField.decoded libs) r.state ps pr, some e⟩
      | none =>
        ⟨Profile.mk { m with version := some 4 } (LibsField.decoded libs) r.state ps pr, none⟩
/-- The thread loop of `convertToVersionFourRecursive`.  A string entry is
decoded, converted and encoded again; when the conversion throws the entry has
not been assigned. -/
def convertFourThreads : List ThreadEntry → Res (List ThreadEntry)
  | [] => ⟨[], none⟩
  | ThreadEntry.encoded q :: rest =>
    let sub := convertToVersionFourRecursive q
    match sub.thrown with
    | some e => ⟨ThreadEntry.encoded q :: rest, some e⟩
    | none =>
      let r := convertFourThreads rest
      ⟨ThreadEntry.encoded sub.state :: r.state, r.thrown⟩
  | ThreadEntry.thread t :: rest =>
    let r := convertFourThreads rest
    ⟨ThreadEntry.thread (normalizeThread t) :: r.state, r.thrown⟩
end

/-! ## Upgrader 5 -/

/-- An element of `allThreadsAndProcesses`: the constructor is the `type`
tag, the argument the `data` field. -/
inductive ThreadOrProcess where
  | process (data : Profile)
  | thread (data : Thread)

/-- The chain `.filter(x => x.type === 'process').map(p => p.data)`. -/
def processData : List ThreadOrProcess → List Profile
  | [] => []
  | ThreadOrProcess.process d :: rest => d :: processData rest
  | ThreadOrProcess.thread _ :: rest => processData rest

/-- The chain `.filter(x => x.type === 'thread').map(t => t.data)`. -/
def threadData : List ThreadOrProcess → List ThreadEntry
  | [] => []
  | ThreadOrProcess.process _ :: rest => threadData rest
  | ThreadOrProcess.thread d :: rest => ThreadEntry.thread d :: threadData rest

mutual
/-- The function `convertToVersionFiveRecursive` of `_upgraders[5]`.  Nothing
in it throws on the profiles of this model. -/
def convertToVersionFiveRecursive : Profile → Profile
  | Profile.mk m l ts _ pr =>
    let allThreadsAndProcesses := convertFiveEntries ts
    Profile.mk { m with version := some 5 } l (threadData allThreadsAndProcesses)
      (some (processData allThreadsAndProcesses)) pr
/-- The call `p.threads.map(threadOrProcess => ...)`. -/
def convertFiveEntries : List ThreadEntry → List ThreadOrProcess
  | [] => []
  | ThreadEntry.encoded q :: rest =>
    ThreadOrProcess.process (convertToVersionFiveRecursive q) :: convertFiveEntries rest
  | ThreadEntry.thread t :: rest =>
    ThreadOrProcess.thread t :: convertFiveEntries rest
end

/-! ## Upgrader 6 -/

/-- Body of the thread loop of `convertToVersionSixRecursive`: `delete` of the
`frameNumber` key and `splice(5)` on every row. -/
def convertSixThread (thread : Thread) : Res Thread :=
  ⟨{ thread with samples :=
      { schema := thread.samples.schema.filter (fun kv => kv.1 != "frameNumber"),
        data := thread.samples.data.map (fun row => row.take 5) } }, none⟩

mutual
/-- The function `convertToVersionSixRecursive` of `_upgraders[6]`. -/
def convertToVersionSixRecursive : Profile → Res Profile
  | Profile.mk m l ts ps pr =>
    let rt := forEachThread convertSixThread ts
    match rt.thrown with
    | some e => ⟨Profile.mk m l rt.state ps pr, some e⟩
    | none =>
      let r := convertSixProcesses ps
      ⟨Profile.mk m l rt.state r.state pr, r.thrown⟩
/-- The loop `for (const subprocessProfile of p.processes)` of
`convertToVersionSixRecursive`: `TypeError` when `p.processes` is absent. -/
def convertSixProcesses :
    Option (List Profile) → Res (Option (List Profile))
  | none => ⟨none, some Thrown.typeError⟩
  | some subs =>
    let r := convertSixEach subs
    ⟨some r.state, r.thrown⟩
/-- The iterations of the loop over `p.processes` of
`convertToVersionSixRecursive`. -/
def convertSixEach : List Profile → Res (List Profile)
  | [] => ⟨[], none⟩
  | q :: rest =>
    let sub := convertToVersionSixRecursive q
    match sub.thrown with
    | some e => ⟨sub.state :: rest, some e⟩
    | none =>
      let r := convertSixEach rest
      ⟨sub.state :: r.state, r.thrown⟩
end

/-! ## Upgrader 7 -/

/-- Modelled from the spec: the class `UniqueStringArray` of
`src/utils/unique-string-array.js`, which is not among the sources.  The
string table built from an ordered sequence of strings answers `getString`
with the string at that index and fails when the index is outside
`[0, len)`. -/
def getString (stringTable : List String) : JVal → Except Thrown String
  | JVal.num n =>
    if 0 ≤ n then
      match stringTable.get? n.toNat with
      | some s => Except.ok s
      | none => Except.error Thrown.indexOutOfRange
    else Except.error Thrown.indexOutOfRange
  | _ => Except.error Thrown.indexOutOfRange

/-- The two assignments `data.eventType = data.type; data.type = 'DOMEvent'`.
`none` when they raise `TypeError`: reading a property of `undefined` or
`null`, or assigning a property of a primitive in strict code. -/
def renameEventType : JVal → Option JVal
  | JVal.obj fields =>
    some (JVal.obj (setProp "type" (JVal.str "DOMEvent")
      (setProp "eventType" ((fields.lookup "type").getD JVal.undefined) fields)))
  | JVal.arr items props =>
    some (JVal.arr items (setProp "type" (JVal.str "DOMEvent")
      (setProp "eventType" ((props.lookup "type").getD JVal.undefined) props)))
  | _ => none

/-- The loop over `thread.markers.data` of `convertToVersionSevenRecursive`. -/
def convertSevenRows (stringTable : List String) (nameIndex dataIndex : Option Nat) :
    List (List JVal) → Res (List (List JVal))
  | [] => ⟨[], none⟩
  | row :: rest =>
    match getString stringTable (rowGet row nameIndex) with
    | Except.error e => ⟨row :: rest, some e⟩
    | Except.ok name =>
      if name = "DOMEvent" then
        match renameEventType (rowGet row dataIndex) with
        | none => ⟨row :: rest, some Thrown.typeError⟩
        | some data =>
          let r := convertSevenRows stringTable nameIndex dataIndex rest
          ⟨rowSet row dataIndex data :: r.state, r.thrown⟩
      else
        let r := convertSevenRows stringTable nameIndex dataIndex rest
        ⟨row :: r.state, r.thrown⟩

/-- Body of the thread loop of `convertToVersionSevenRecursive`. -/
def convertSevenThread (thread : Thread) : Res Thread :=
  let nameIndex := thread.markers.schema.lookup "name"
  let dataIndex := thread.markers.schema.lookup "data"
  let r := convertSevenRows thread.stringTable nameIndex dataIndex thread.markers.data
  ⟨{ thread with markers := { thread.markers with data := r.state } }, r.thrown⟩

mutual
/-- The function `convertToVersionSevenRecursive` of `_upgraders[7]`. -/
def convertToVersionSevenRecursive : Profile → Res Profile
  | Profile.mk m l ts ps pr =>
    let rt := forEachThread convertSevenThread ts
    match rt.thrown with
    | some e => ⟨Profile.mk m l rt.state ps pr, some e⟩
    | none =>
      let r := convertSevenProcesses ps
      ⟨Profile.mk m l rt.state r.state pr, r.thrown⟩
/-- The loop `for (const subprocessProfile of p.processes)` of
`convertToVersionSevenRecursive`: `TypeError` when `p.processes` is absent. -/
def convertSevenProcesses :
    Option (List Profile) → Res (Option (List Profile))
  | none => ⟨none, some Thrown.typeError⟩
  | some subs =>
    let r := convertSevenEach subs
    ⟨some r.state, r.thrown⟩
/-- The iterations of the loop over `p.processes` of
`convertToVersionSevenRecursive`. -/
def convertSevenEach : List Profile → Res (List Profile)
  | [] => ⟨[], none⟩
  | q :: rest =>
    let sub := convertToVersionSevenRecursive q
    match sub.thrown with
    | some e => ⟨sub.state :: rest, some e⟩
    | none =>
      let r := convertSevenEach rest
      ⟨sub.state :: r.state, r.thrown⟩
end

/-! ## Upgrader 8 -/

/-- Body of the thread loop of `convertToVersionEightRecursive`. -/
def convertEightThread (thread : Thread) : Res Thread :=
  ⟨{ thread with registerTime := some (JVal.num 0), unregisterTime := some JVal.null }, none⟩

mutual
/-- The function `convertToVersionEightRecursive` of `_upgraders[8]`. -/
def convertToVersionEightRecursive : Profile → Res Profile
  | Profile.mk m l ts ps _ =>
    let m1 : Meta := { m with shutdownTime := some JVal.null }
    let rt := forEachThread convertEightThread ts
    match rt.thrown with
    | some e => ⟨Profile.mk m1 l rt.state ps (some []), some e⟩
    | none =>
      let r := convertEightProcesses ps
      ⟨Profile.mk m1 l rt.state r.state (some []), r.thrown⟩
/-- The loop `for (const subprocessProfile of p.processes)` of
`convertToVersionEightRecursive`: `TypeError` when `p.processes` is absent. -/
def convertEightProcesses :
    Option (List Profile) → Res (Option (List Profile))
  | none => ⟨none, some Thrown.typeError⟩
  | some subs =>
    let r := convertEightEach subs
    ⟨some r.state, r.thrown⟩
/-- The iterations of the loop over `p.processes` of
`convertToVersionEightRecursive`. -/
def convertEightEach : List Profile → Res (List Profile)
  | [] => ⟨[], none⟩
  | q :: rest =>
    let sub := convertToVersionEightRecursive q
    match sub.thrown with
    | some e => ⟨sub.state :: rest, some e⟩
    | none =>
      let r := convertEightEach rest
      ⟨sub.state :: r.state, r.thrown⟩
end

/-! ## Upgrader 9 -/

/-- The two functions imported from `./convert-markers`, which is not among
the sources: pure functions from a payload to a payload. -/
structure ConvertMarkers where
  upgradeGCMinorMarker : JVal → JVal
  upgradeGCMajorMarker_Gecko8To9 : JVal → JVal

/-- The `switch (marker.type)` of `convertToVersionNineRecursive`. -/
def upgradeMarker (cm : ConvertMarkers) (marker : JVal) : JVal :=
  match marker.getProp "type" with
  | JVal.str tag =>
    if tag = "GCMinor" then cm.upgradeGCMinorMarker marker
    else if tag = "GCMajor" then cm.upgradeGCMajorMarker_Gecko8To9 marker
    else marker
  | _ => marker

/-- Body of the loop over `thread.markers.data` of
`convertToVersionNineRecursive`.  The assignment is reached only with a
truthy `marker`, hence with a cell that exists. -/
def convertNineRow (cm : ConvertMarkers) (dataIndex : Option Nat) (row : List JVal) : List JVal :=
  let marker := rowGet row dataIndex
  if marker.truthy then rowSet row dataIndex (upgradeMarker cm marker) else row

/-- Body of the thread loop of `convertToVersionNineRecursive`. -/
def convertNineThread (cm : ConvertMarkers) (thread : Thread) : Res Thread :=
  let dataIndex := thread.markers.schema.lookup "data"
  ⟨{ thread with markers :=
      { thread.markers with data := thread.markers.data.map (convertNineRow cm dataIndex) } }, none⟩

mutual
/-- The function `convertToVersionNineRecursive` of `_upgraders[9]`. -/
def convertToVersionNineRecursive (cm : ConvertMarkers) : Profile → Res Profile
  | Profile.mk m l ts ps pr =>
    let rt := forEachThread (convertNineThread cm) ts
    match rt.thrown with
    | some e => ⟨Profile.mk m l rt.state ps pr, some e⟩
    | none =>
      let r := convertNineProcesses cm ps
      ⟨Profile.mk m l rt.state r.state pr, r.thrown⟩
/-- The loop `for (const subprocessProfile of p.processes)` of
`convertToVersionNineRecursive`: `TypeError` when `p.processes` is absent. -/
def convertNineProcesses (cm : ConvertMarkers) :
    Option (List Profile) → Res (Option (List Profile))
  | none => ⟨none, some Thrown.typeError⟩
  | some subs =>
    let r := convertNineEach cm subs
    ⟨some r.state, r.thrown⟩
/-- The iterations of the loop over `p.processes` of
`convertToVersionNineRecursive`. -/
def convertNineEach (cm : ConvertMarkers) : List Profile → Res (List Profile)
  | [] => ⟨[], none⟩
  | q :: rest =>
    let sub := convertToVersionNineRecursive cm q
    match sub.thrown with
    | some e => ⟨sub.state :: rest, some e⟩
    | none =>
      let r := convertNineEach cm rest
      ⟨sub.state :: r.state, r.thrown⟩
end

/-! ## The registry and the driver -/

/-- The message thrown by `_upgraders[1]`. -/
def unversionedMessage : String :=
  "Gecko profiles without version numbers are very old and no conversion code has been written for that version of the profile format."

/-- The message thrown by `_upgraders[2]` (`version = 1`) and `_upgraders[3]`
(`version = 2`). -/
def veryOldMessage (version : Nat) : String :=
  "Gecko profile version " ++ toString version ++
    " is very old and no conversion code has been written for that version of the profile format."

/-- The message of the error thrown for a profile that is too new. -/
def futureVersionMessage (profileVersion : Nat) : String :=
  "Unable to parse a Gecko profile of version " ++ toString profileVersion ++
    " - are you running an outdated version of perf.html? " ++
    "The most recent version understood by this version of perf.html is version " ++
    toString CURRENT_VERSION ++ ".\n" ++
    "You can try refreshing this page in case perf.html has updated in the meantime."

/-- The object `_upgraders`: `destVersion in _upgraders` is `isSome`, and
`_upgraders[destVersion]` the function. -/
def _upgraders (cm : ConvertMarkers) : Nat → Option (Profile → Res Profile)
  | 1 => some (fun p => ⟨p, some (Thrown.error unversionedMessage)⟩)
  | 2 => some (fun p => ⟨p, some (Thrown.error (veryOldMessage 1))⟩)
  | 3 => some (fun p => ⟨p, some (Thrown.error (veryOldMessage 2))⟩)
  | 4 => some convertToVersionFourRecursive
  | 5 => some (fun p => ⟨convertToVersionFiveRecursive p, none⟩)
  | 6 => some convertToVersionSixRecursive
  | 7 => some convertToVersionSevenRecursive
  | 8 => some convertToVersionEightRecursive
  | 9 => some (convertToVersionNineRecursive cm)
  | _ => none

/-- A run of the driver: the state the profile is left in, the exception that
escaped (if any), and the target versions of the upgraders that were invoked,
in the order of invocation. -/
structure Run where
  profile : Profile
  thrown : Option Thrown
  invoked : List Nat

/-- The assignment `profile.meta.version = v`. -/
def Profile.setVersion (v : Option Nat) : Profile → Profile
  | Profile.mk m l ts ps pr => Profile.mk { m with version := v } l ts ps pr

/-- The `for` loop of the driver, entered with `destVersion = dest`.  The first
argument bounds the number of iterations; the driver passes
`CURRENT_VERSION - profileVersion`, the number of values from
`profileVersion + 1` to `CURRENT_VERSION`. -/
def upgradeLoop (cm : ConvertMarkers) : Nat → Nat → Profile → List Nat → Run
  | 0, _, profile, invoked => ⟨profile, none, invoked⟩
  | n + 1, dest, profile, invoked =>
    if dest ≤ CURRENT_VERSION then
      match _upgraders cm dest with
      | some upgrader =>
        let r := upgrader profile
        match r.thrown with
        | some e => ⟨r.state, some e, invoked ++ [dest]⟩
        | none => upgradeLoop cm n (dest + 1) r.state (invoked ++ [dest])
      | none => upgradeLoop cm n (dest + 1) profile invoked
    else ⟨profile, none, invoked⟩

/-- The expression `profile.meta.version || UNANNOTATED_VERSION`. -/
def profileVersionOf (profile : Profile) : Nat :=
  match profile.meta.version with
  | none => UNANNOTATED_VERSION
  | some v => if v = 0 then UNANNOTATED_VERSION else v

/-- The function `upgradeGeckoProfileToCurrentVersion`. -/
def upgradeGeckoProfileToCurrentVersion (cm : ConvertMarkers) (profile : Profile) : Run :=
  let profileVersion := profileVersionOf profile
  if profileVersion = CURRENT_VERSION then ⟨profile, none, []⟩
  else if profileVersion > CURRENT_VERSION then
    ⟨profile, some (Thrown.error (futureVersionMessage profileVersion)), []⟩
  else
    let r := upgradeLoop cm (CURRENT_VERSION - profileVersion) (profileVersion + 1) profile []
    match r.thrown with
    | some e => ⟨r.profile, some e, r.invoked⟩
    | none => ⟨r.profile.setVersion (some CURRENT_VERSION), none, r.invoked⟩

/-- The composition named by the specification: the upgraders registered for
the target versions `dests`, applied one after the other in that order.
`none` when a target has no upgrader or an upgrader throws. -/
def composeUpgraders (cm : ConvertMarkers) : List Nat → Profile → Option Profile
  | [], p => some p
  | d :: ds, p =>
    match _upgraders cm d with
    | none => none
    | some upgrader =>
      match (upgrader p).thrown with
      | some _ => none
      | none => composeUpgraders cm ds (upgrader p).state

/-! ## Observations on a profile tree -/

/-- The field `meta.version` of a profile. -/
def Profile.version (p : Profile) : Option Nat := p.meta.version

mutual
/-- Every subprocess profile nested at any depth under `processes`, parents
before children. -/
def nested : Profile → List Profile
  | Profile.mk _ _ _ ps _ => nestedOfProcesses ps
/-- The profiles nested under a `processes` field, which may be absent. -/
def nestedOfProcesses : Option (List Profile) → List Profile
  | none => []
  | some subs => nestedOfList subs
/-- The profiles of a `processes` sequence with everything nested in them. -/
def nestedOfList : List Profile → List Profile
  | [] => []
  | q :: rest => q :: (nested q ++ nestedOfList rest)
end

mutual
/-- Every subprocess profile embedded as a string at any depth in `threads`,
parents before children. -/
def embedded : Profile → List Profile
  | Profile.mk _ _ ts _ _ => embeddedOfEntries ts
/-- The profiles embedded in a `threads` sequence. -/
def embeddedOfEntries : List ThreadEntry → List Profile
  | [] => []
  | ThreadEntry.thread _ :: rest => embeddedOfEntries rest
  | ThreadEntry.encoded q :: rest => q :: (embedded q ++ embeddedOfEntries rest)
end

/-- The thread records among the entries of a `threads` sequence. -/
def threadRecords : List ThreadEntry → List Thread
  | [] => []
  | ThreadEntry.thread t :: rest => t :: threadRecords rest
  | ThreadEntry.encoded _ :: rest => threadRecords rest

/-- The string entries of a `threads` sequence, decoded. -/
def stringEntries : List ThreadEntry → List Profile
  | [] => []
  | ThreadEntry.thread _ :: rest => stringEntries rest
  | ThreadEntry.encoded q :: rest => q :: stringEntries rest

/-- Whether an entry of `threads` is a string. -/
def ThreadEntry.isString : ThreadEntry → Bool
  | ThreadEntry.thread _ => false
  | ThreadEntry.encoded _ => true

/-- The threads of the root and of every subprocess profile nested at any
depth under `processes`: a profile's own threads, then those of its
processes in order. -/
def allThreads (p : Profile) : List Thread :=
  threadRecords p.threads ++ (nested p).flatMap (fun q => threadRecords q.threads)

mutual
/-- A profile in the shape of format version 5 and later: no entry of
`threads` is a string and `processes` is present, at the root and at every
nested subprocess profile. -/
def structured : Profile → Bool
  | Profile.mk _ _ ts ps _ =>
    ts.all (fun e => !e.isString) && structuredProcesses ps
/-- The field `processes` is present and all its profiles are `structured`. -/
def structuredProcesses : Option (List Profile) → Bool
  | none => false
  | some subs => structuredList subs
/-- All profiles of a `processes` sequence are `structured`. -/
def structuredList : List Profile → Bool
  | [] => true
  | q :: rest => structured q && structuredList rest
end

/-- Whether a value is an object, so that its properties can be assigned. -/
def JVal.isObject : JVal → Bool
  | JVal.obj _ => true
  | JVal.arr _ _ => true
  | _ => false

/-- A marker row as upgrader 7 expects it: the name cell resolves through the
string table of the thread, and when it resolves to `DOMEvent` the payload cell
holds an object. -/
def markerRowWellFormed (stringTable : List String) (nameIndex dataIndex : Option Nat)
    (row : List JVal) : Bool :=
  match getString stringTable (rowGet row nameIndex) with
  | Except.error _ => false
  | Except.ok name => name != "DOMEvent" || (rowGet row dataIndex).isObject

/-- A thread all of whose marker rows are as upgrader 7 expects them. -/
def markersWellFormed (t : Thread) : Bool :=
  t.markers.data.all
    (markerRowWellFormed t.stringTable (t.markers.schema.lookup "name")
      (t.markers.schema.lookup "data"))

/-- A library descriptor of format version 3: it has `breakpadId`, or it has
`pdbSignature` and `pdbName`. -/
def libConvertible (lib : Lib) : Bool :=
  lib.breakpadId.isSome || (lib.pdbSignature.isSome && lib.pdbName.isSome)

/-- Whether the `libs` field is JSON text. -/
def LibsField.isEncoded : LibsField → Bool
  | LibsField.encoded _ => true
  | LibsField.decoded _ => false

/-- A `libs` field of format version 3: JSON text of an array of descriptors of
that version. -/
def libsConvertible : LibsField → Bool
  | LibsField.encoded raw => raw.all libConvertible
  | LibsField.decoded _ => false

mutual
/-- A profile in the shape of format version 3: `libs` is JSON text of
version-3 descriptors, at the root and in every subprocess profile embedded
in `threads`. -/
def versionThreeShape : Profile → Bool
  | Profile.mk _ l ts _ _ => libsConvertible l && versionThreeEntries ts
/-- All profiles embedded in a `threads` sequence are in the version-3 shape. -/
def versionThreeEntries : List ThreadEntry → Bool
  | [] => true
  | ThreadEntry.thread _ :: rest => versionThreeEntries rest
  | ThreadEntry.encoded q :: rest => versionThreeShape q && versionThreeEntries rest
end

/-- The relation between a profile and what upgrader 4 makes of it, its
embedded profiles left aside: `libs` is decoded, converted entry by entry and
sorted, and every thread record is normalised. -/
def convertedByFour (q q1 : Profile) : Prop :=
  (∃ raw normal, q.libs = LibsField.encoded raw ∧
      mapLibs q.meta.abi raw = Except.ok normal ∧
      q1.libs = LibsField.decoded (sortByStart normal)) ∧
    threadRecords q1.threads = (threadRecords q.threads).map normalizeThread

/-- The name and the process type of the thread records of a `threads`
sequence. -/
def threadLabels (ts : List ThreadEntry) : List (String × Option String) :=
  (threadRecords ts).map (fun t => (t.name, t.processType))

/-- The shape the specification gives to a normalised library descriptor `n`,
for the original descriptor `lib` and the `meta.abi` of its profile. -/
def libNormalised (abi : Option String) (lib n : Lib) : Prop :=
  (lib.breakpadId.isSome = true →
    n.breakpadId = lib.breakpadId ∧
      ∃ debugName, n.debugName = some debugName ∧
        (('/' ∉ lib.name.data ∧ debugName = lib.name) ∨
          ∃ pre, lib.name.data = pre ++ '/' :: debugName.data ∧ '/' ∉ debugName.data)) ∧
  (lib.breakpadId = none →
    n.debugName = lib.pdbName ∧
      ∃ signature, lib.pdbSignature = some signature ∧
        n.breakpadId =
          some (String.mk
              ((signature.data.filter
                (fun c => !decide (c ∈ [Char.ofNat 123, Char.ofNat 125, '-']))).map
                Char.toUpper) ++
            ageString lib.pdbAge)) ∧
  n.path = some lib.name ∧
  (∃ debugName, n.debugName = some debugName ∧
    ((∃ stem, debugName.data = stem ++ ".pdb".data ∧ n.name = String.mk stem) ∨
      (¬ ".pdb".data <:+ debugName.data ∧ n.name = debugName))) ∧
  (abi = some "x86_64-gcc3" → n.arch = some "x86_64") ∧
  (abi ≠ some "x86_64-gcc3" → n.arch = abi) ∧
  n.debugPath = some "" ∧ n.pdbName = none ∧ n.pdbAge = none ∧ n.pdbSignature = none ∧
  n.start = lib.start

/-- A library descriptor in the scheme with `pdbName`, `pdbSignature` and
`pdbAge`. -/
def pdbLib : Lib :=
  { start := 8192
    name := "C:\\firefox\\xul.dll"
    breakpadId := none
    pdbName := some "xul.pdb"
    pdbAge := some 2
    pdbSignature := some "\x7b1a2b-3c4d\x7d"
    debugName := none
    path := none
    arch := none
    debugPath := none
    other := [] }

/-- What is observed of a thread in the shape of a process tree: its name,
its string table, and the number of rows of its two tables. -/
structure ThreadShape where
  name : String
  stringTable : List String
  sampleRows : Nat
  markerRows : Nat
  deriving DecidableEq

/-- The shape of a thread record. -/
def threadShape (t : Thread) : ThreadShape :=
  { name := t.name
    stringTable := t.stringTable
    sampleRows := t.samples.data.length
    markerRows := t.markers.data.length }

/-- The shape of an entry of `threads`; `none` for a string. -/
def entryShape : ThreadEntry → Option ThreadShape
  | ThreadEntry.thread t => some (threadShape t)
  | ThreadEntry.encoded _ => none

/-- The shape of a process tree: at every profile its `libs`, the shapes of the
entries of `threads` in order, and the shapes of the entries of `processes` in
order (`none` when `processes` is absent). -/
inductive TreeShape where
  | node (libs : LibsField) (threads : List (Option ThreadShape))
      (processes : Option (List TreeShape))

mutual
/-- The shape of the tree rooted at a profile. -/
def shape : Profile → TreeShape
  | Profile.mk _ l ts ps _ => TreeShape.node l (ts.map entryShape) (shapeOfProcesses ps)
/-- The shapes of the entries of a `processes` field, which may be absent. -/
def shapeOfProcesses : Option (List Profile) → Option (List TreeShape)
  | none => none
  | some subs => some (shapeOfList subs)
/-- The shapes of the profiles of a `processes` sequence, in order. -/
def shapeOfList : List Profile → List TreeShape
  | [] => []
  | q :: rest => shape q :: shapeOfList rest
end

/-! ## Concrete profiles -/

/-- Marker upgraders that return the payload as it is. -/
def plainMarkers : ConvertMarkers := ⟨fun d => d, fun d => d⟩

/-- A thread with one six-cell sample row and one `DOMEvent` marker. -/
def sampleThread : Thread :=
  { name := "GeckoMain"
    processType := some "default"
    registerTime := none
    unregisterTime := none
    samples :=
      { schema := [("stack", 0), ("time", 1), ("responsiveness", 2), ("rss", 3), ("uss", 4),
          ("frameNumber", 5)]
        data := [[JVal.num 7, JVal.num 1, JVal.num 2, JVal.num 3, JVal.num 4, JVal.num 5]] }
    markers :=
      { schema := [("name", 0), ("time", 1), ("data", 2)]
        data := [[JVal.num 0, JVal.num 10, JVal.obj [("type", JVal.str "click")]]] }
    stringTable := ["DOMEvent"]
    other := [] }

/-- A thread of the early version-3 format: named `Content`, no `processType`. -/
def contentThread : Thread :=
  { sampleThread with name := "Content", processType := none }

/-- A library descriptor in the scheme with `breakpadId`. -/
def sampleLib : Lib :=
  { start := 4096
    name := "/usr/lib/libxul.so"
    breakpadId := some "ABCDEF0"
    pdbName := none
    pdbAge := none
    pdbSignature := none
    debugName := none
    path := none
    arch := none
    debugPath := none
    other := [] }

/-- The `meta` record holding only a version tag. -/
def metaOf (version : Option Nat) : Meta :=
  { version := version, abi := some "x86_64-gcc3", shutdownTime := none, other := [] }

/-- A version-5 profile without subprocesses. -/
def childV5 : Profile :=
  Profile.mk (metaOf (some 5)) (LibsField.decoded []) [ThreadEntry.thread sampleThread] (some []) none

/-- A version-5 profile with one subprocess. -/
def rootV5 : Profile :=
  Profile.mk (metaOf (some 5)) (LibsField.decoded []) [ThreadEntry.thread sampleThread]
    (some [childV5]) none

/-- A version-3 profile without subprocesses. -/
def childV3 : Profile :=
  Profile.mk (metaOf (some 3)) (LibsField.encoded [sampleLib]) [ThreadEntry.thread contentThread]
    none none

/-- A version-3 profile with one embedded subprocess profile. -/
def rootV3 : Profile :=
  Profile.mk (metaOf (some 3)) (LibsField.encoded [sampleLib])
    [ThreadEntry.thread contentThread, ThreadEntry.encoded childV3] none none

/-- A thread of format version 6: `sampleThread` without the `frameNumber`
column. -/
def threadV6 : Thread :=
  { sampleThread with
    samples :=
      { schema := [("stack", 0), ("time", 1), ("responsiveness", 2), ("rss", 3), ("uss", 4)]
        data := [[JVal.num 7, JVal.num 1, JVal.num 2, JVal.num 3, JVal.num 4]] } }

/-- A version-6 profile with one `DOMEvent` marker of payload
`{type: "click"}`. -/
def rootV6 : Profile :=
  Profile.mk (metaOf (some 6)) (LibsField.decoded []) [ThreadEntry.thread threadV6] (some []) none

/-- The value of the property `key` of a payload when it is a string. -/
def stringProp (key : String) (payload : JVal) : Option String :=
  match payload.getProp key with
  | JVal.str s => some s
  | _ => none

/-- For every thread of the tree and every marker row, the string held by the
property `key` of the payload. -/
def markerPayloadProp (key : String) (p : Profile) : List (List (Option String)) :=
  (allThreads p).map (fun t =>
    t.markers.data.map (fun row => stringProp key (rowGet row (t.markers.schema.lookup "data"))))

/-- Marker upgraders that replace the payload by a label, to tell them apart. -/
def labelMarkers : ConvertMarkers := ⟨fun _ => JVal.str "minor", fun _ => JVal.str "major"⟩

/-- A thread of format version 8 with four markers: a minor and a major garbage
collection, a marker of another type and a marker without payload. -/
def gcThread : Thread :=
  { threadV6 with
    registerTime := some (JVal.num 0)
    unregisterTime := some JVal.null
    markers :=
      { schema := [("name", 0), ("time", 1), ("data", 2)]
        data :=
          [[JVal.num 0, JVal.num 10, JVal.obj [("type", JVal.str "GCMinor")]],
           [JVal.num 0, JVal.num 11, JVal.obj [("type", JVal.str "GCMajor")]],
           [JVal.num 0, JVal.num 12, JVal.obj [("type", JVal.str "tracing")]],
           [JVal.num 0, JVal.num 13]] }
    stringTable := ["GC"] }

/-- A version-8 profile whose only thread is `gcThread`. -/
def rootV8 : Profile :=
  Profile.mk { metaOf (some 8) with shutdownTime := some JVal.null } (LibsField.decoded [])
    [ThreadEntry.thread gcThread] (some []) (some [])

/-! ## Basic facts -/

theorem threads_mk (m : Meta) (l : LibsField) (ts : List ThreadEntry)
    (ps : Option (List Profile)) (pr : Option (List JVal)) :
    (Profile.mk m l ts ps pr).threads = ts := rfl

theorem processes_mk (m : Meta) (l : LibsField) (ts : List ThreadEntry)
    (ps : Option (List Profile)) (pr : Option (List JVal)) :
    (Profile.mk m l ts ps pr).processes = ps := rfl

theorem meta_mk (m : Meta) (l : LibsField) (ts : List ThreadEntry)
    (ps : Option (List Profile)) (pr : Option (List JVal)) :
    (Profile.mk m l ts ps pr).meta = m := rfl

theorem pausedRanges_mk (m : Meta) (l : LibsField) (ts : List ThreadEntry)
    (ps : Option (List Profile)) (pr : Option (List JVal)) :
    (Profile.mk m l ts ps pr).pausedRanges = pr := rfl

theorem libs_mk (m : Meta) (l : LibsField) (ts : List ThreadEntry)
    (ps : Option (List Profile)) (pr : Option (List JVal)) :
    (Profile.mk m l ts ps pr).libs = l := rfl

theorem version_mk (m : Meta) (l : LibsField) (ts : List ThreadEntry)
    (ps : Option (List Profile)) (pr : Option (List JVal)) :
    (Profile.mk m l ts ps pr).version = m.version := rfl

/-- Induction over a profile tree, with one predicate for profiles, one for
`threads` sequences and one for `processes` sequences. -/
theorem tree_induction {P : Profile → Prop} {T : List ThreadEntry → Prop}
    {Q : List Profile → Prop}
    (hmk : ∀ m l ts ps pr, T ts → (∀ subs, ps = some subs → Q subs) →
      P (Profile.mk m l ts ps pr))
    (hT0 : T [])
    (hTt : ∀ t rest, T rest → T (ThreadEntry.thread t :: rest))
    (hTe : ∀ q rest, P q → T rest → T (ThreadEntry.encoded q :: rest))
    (hQ0 : Q [])
    (hQc : ∀ q rest, P q → Q rest → Q (q :: rest)) :
    (∀ p, P p) ∧ (∀ ts, T ts) ∧ (∀ subs, Q subs) := by
  have hP : ∀ p, P p := fun p =>
    Profile.rec (motive_1 := P)
      (motive_2 := fun e => ∀ rest, T rest → T (e :: rest))
      (motive_3 := T)
      (motive_4 := fun ps => ∀ subs, ps = some subs → Q subs)
      (motive_5 := Q)
      (fun m l ts ps pr hts hps => hmk m l ts ps pr hts hps)
      (fun t rest h => hTt t rest h)
      (fun q hq rest h => hTe q rest hq h)
      hT0
      (fun e rest he hrest => he rest hrest)
      (fun subs h => by cases h)
      (fun val hval subs h => by cases h; exact hval)
      hQ0
      (fun q rest hq hrest => hQc q rest hq hrest)
      p
  refine ⟨hP, ?_, ?_⟩
  · intro ts
    induction ts with
    | nil => exact hT0
    | cons e rest ih =>
      cases e with
      | thread t => exact hTt t rest ih
      | encoded q => exact hTe q rest (hP q) ih
  · intro subs
    induction subs with
    | nil => exact hQ0
    | cons q rest ih => exact hQc q rest (hP q) ih

/-- Induction over the `processes` structure of a profile tree. -/
theorem processes_induction {P : Profile → Prop} {Q : List Profile → Prop}
    (hmk : ∀ m l ts ps pr, (∀ subs, ps = some subs → Q subs) →
      P (Profile.mk m l ts ps pr))
    (hQ0 : Q [])
    (hQc : ∀ q rest, P q → Q rest → Q (q :: rest)) :
    (∀ p, P p) ∧ (∀ subs, Q subs) := by
  have h := tree_induction (P := P) (T := fun _ => True) (Q := Q)
    (fun m l ts ps pr _ hps => hmk m l ts ps pr hps) trivial (fun _ _ _ => trivial)
    (fun _ _ _ _ => trivial) hQ0 hQc
  exact ⟨h.1, h.2.2⟩

/-- Induction over the strings embedded in the `threads` of a profile tree. -/
theorem threads_induction {P : Profile → Prop} {T : List ThreadEntry → Prop}
    (hmk : ∀ m l ts ps pr, T ts → P (Profile.mk m l ts ps pr))
    (hT0 : T [])
    (hTt : ∀ t rest, T rest → T (ThreadEntry.thread t :: rest))
    (hTe : ∀ q rest, P q → T rest → T (ThreadEntry.encoded q :: rest)) :
    (∀ p, P p) ∧ (∀ ts, T ts) := by
  have h := tree_induction (P := P) (T := T) (Q := fun _ => True)
    (fun m l ts ps pr hts _ => hmk m l ts ps pr hts) hT0 hTt hTe trivial
    (fun _ _ _ _ => trivial)
  exact ⟨h.1, h.2.1⟩

/-! ## Upgraders 6 to 9 leave `meta.version` alone -/

theorem convertSix_versions :
    (∀ p : Profile, (convertToVersionSixRecursive p).state.version = p.version ∧
      (nested (convertToVersionSixRecursive p).state).map Profile.version =
        (nested p).map Profile.version) ∧
    (∀ subs : List Profile,
      (nestedOfList (convertSixEach subs).state).map Profile.version =
        (nestedOfList subs).map Profile.version) := by
  apply processes_induction
  · intro m l ts ps pr ih
    simp only [convertToVersionSixRecursive]
    split
    · simp [Profile.version, Profile.meta, nested]
    · cases ps with
      | none => simp [Profile.version, Profile.meta, nested, convertSixProcesses]
      | some subs =>
        simp [Profile.version, Profile.meta, nested, convertSixProcesses, nestedOfProcesses,
          ih subs rfl]
  · simp [convertSixEach]
  · intro q rest ih1 ih2
    simp only [convertSixEach]
    split <;> simp [nestedOfList, ih1, ih2]

theorem convertSeven_versions :
    (∀ p : Profile, (convertToVersionSevenRecursive p).state.version = p.version ∧
      (nested (convertToVersionSevenRecursive p).state).map Profile.version =
        (nested p).map Profile.version) ∧
    (∀ subs : List Profile,
      (nestedOfList (convertSevenEach subs).state).map Profile.version =
        (nestedOfList subs).map Profile.version) := by
  apply processes_induction
  · intro m l ts ps pr ih
    simp only [convertToVersionSevenRecursive]
    split
    · simp [Profile.version, Profile.meta, nested]
    · cases ps with
      | none => simp [Profile.version, Profile.meta, nested, convertSevenProcesses]
      | some subs =>
        simp [Profile.version, Profile.meta, nested, convertSevenProcesses, nestedOfProcesses,
          ih subs rfl]
  · simp [convertSevenEach]
  · intro q rest ih1 ih2
    simp only [convertSevenEach]
    split <;> simp [nestedOfList, ih1, ih2]

theorem convertEight_versions :
    (∀ p : Profile, (convertToVersionEightRecursive p).state.version = p.version ∧
      (nested (convertToVersionEightRecursive p).state).map Profile.version =
        (nested p).map Profile.version) ∧
    (∀ subs : List Profile,
      (nestedOfList (convertEightEach subs).state).map Profile.version =
        (nestedOfList subs).map Profile.version) := by
  apply processes_induction
  · intro m l ts ps pr ih
    simp only [convertToVersionEightRecursive]
    split
    · simp [Profile.version, Profile.meta, nested]
    · cases ps with
      | none => simp [Profile.version, Profile.meta, nested, convertEightProcesses]
      | some subs =>
        simp [Profile.version, Profile.meta, nested, convertEightProcesses, nestedOfProcesses,
          ih subs rfl]
  · simp [convertEightEach]
  · intro q rest ih1 ih2
    simp only [convertEightEach]
    split <;> simp [nestedOfList, ih1, ih2]

theorem convertNine_versions (cm : ConvertMarkers) :
    (∀ p : Profile, (convertToVersionNineRecursive cm p).state.version = p.version ∧
      (nested (convertToVersionNineRecursive cm p).state).map Profile.version =
        (nested p).map Profile.version) ∧
    (∀ subs : List Profile,
      (nestedOfList (convertNineEach cm subs).state).map Profile.version =
        (nestedOfList subs).map Profile.version) := by
  apply processes_induction
  · intro m l ts ps pr ih
    simp only [convertToVersionNineRecursive]
    split
    · simp [Profile.version, Profile.meta, nested]
    · cases ps with
      | none => simp [Profile.version, Profile.meta, nested, convertNineProcesses]
      | some subs =>
        simp [Profile.version, Profile.meta, nested, convertNineProcesses, nestedOfProcesses,
          ih subs rfl]
  · simp [convertNineEach]
  · intro q rest ih1 ih2
    simp only [convertNineEach]
    split <;> simp [nestedOfList, ih1, ih2]

/-! ## Upgraders 4 and 5 write `meta.version` -/

theorem convertFour_versions :
    (∀ p : Profile, (convertToVersionFourRecursive p).thrown = none →
      (convertToVersionFourRecursive p).state.version = some 4 ∧
        ∀ q ∈ embedded (convertToVersionFourRecursive p).state, q.version = some 4) ∧
    (∀ ts : List ThreadEntry, (convertFourThreads ts).thrown = none →
      ∀ q ∈ embeddedOfEntries (convertFourThreads ts).state, q.version = some 4) := by
  apply threads_induction
  · intro m l ts ps pr ih
    simp only [convertToVersionFourRecursive]
    split
    · simp
    · split
      · simp
      · rename_i hnone
        intro _
        exact ⟨rfl, by simpa [embedded] using ih hnone⟩
  · simp [convertFourThreads, embeddedOfEntries]
  · intro t rest ih
    simpa [convertFourThreads, embeddedOfEntries] using ih
  · intro q rest ihq ih
    simp only [convertFourThreads]
    split
    · simp
    · rename_i hnone
      intro hrest
      have h1 := ihq hnone
      have h2 := ih hrest
      intro x hx
      simp only [embeddedOfEntries, List.mem_cons, List.mem_append] at hx
      rcases hx with hx | hx | hx
      · rw [hx]; exact h1.1
      · exact h1.2 x hx
      · exact h2 x hx

theorem convertFive_versions :
    (∀ p : Profile, (convertToVersionFiveRecursive p).version = some 5 ∧
      ∀ q ∈ nested (convertToVersionFiveRecursive p), q.version = some 5) ∧
    (∀ ts : List ThreadEntry,
      ∀ q ∈ nestedOfList (processData (convertFiveEntries ts)), q.version = some 5) := by
  apply threads_induction
  · intro m l ts ps pr ih
    simp only [convertToVersionFiveRecursive]
    exact ⟨rfl, by simpa [nested, nestedOfProcesses] using ih⟩
  · simp [convertFiveEntries, processData, nestedOfList]
  · intro t rest ih
    simpa [convertFiveEntries, processData] using ih
  · intro q rest ihq ih
    intro x hx
    simp only [convertFiveEntries, processData, nestedOfList, List.mem_cons,
      List.mem_append] at hx
    rcases hx with hx | hx | hx
    · rw [hx]; exact ihq.1
    · exact ihq.2 x hx
    · exact ih x hx

/-! ## The driver -/

theorem setVersion_version (v : Option Nat) (p : Profile) :
    (p.setVersion v).version = v := by
  cases p; rfl

theorem profileVersionOf_of_version {p : Profile} {v : Nat} (h : p.version = some v) :
    profileVersionOf p = v := by
  unfold Profile.version at h
  unfold profileVersionOf
  rw [h]
  by_cases hv : v = 0
  · simp [hv, UNANNOTATED_VERSION]
  · simp [hv]

theorem version_of_profileVersionOf {p : Profile} {v : Nat} (h : profileVersionOf p = v)
    (hv : v ≠ 0) : p.version = some v := by
  unfold profileVersionOf at h
  unfold Profile.version
  cases hm : p.meta.version with
  | none => rw [hm] at h; simp [UNANNOTATED_VERSION] at h; exact absurd h.symm hv
  | some w =>
    rw [hm] at h
    by_cases hw : w = 0
    · simp [hw, UNANNOTATED_VERSION] at h; exact absurd h.symm hv
    · simp [hw] at h; rw [h]

/-- A run that does not throw leaves the root tagged with the current version. -/
theorem upgrade_returns_version (cm : ConvertMarkers) (p : Profile)
    (h : (upgradeGeckoProfileToCurrentVersion cm p).thrown = none) :
    (upgradeGeckoProfileToCurrentVersion cm p).profile.version = some CURRENT_VERSION := by
  unfold upgradeGeckoProfileToCurrentVersion at h ⊢
  simp only at h ⊢
  split at h
  · rename_i h9
    simp only [if_pos h9]
    exact version_of_profileVersionOf h9 (by decide)
  · rename_i h9
    simp only [if_neg h9] at h ⊢
    split at h
    · simp at h
    · rename_i hgt
      simp only [if_neg hgt] at h ⊢
      split at h
      · simp at h
      · rename_i hnone
        simp only [hnone]
        exact setVersion_version _ _

/-- A profile already at the current version is returned as it is. -/
theorem upgrade_current (cm : ConvertMarkers) (p : Profile)
    (h : p.version = some CURRENT_VERSION) :
    upgradeGeckoProfileToCurrentVersion cm p = ⟨p, none, []⟩ := by
  unfold upgradeGeckoProfileToCurrentVersion
  simp [profileVersionOf_of_version h]

/-- Claim C1. For every profile whose `meta.version` is an integer `v` in
`[0, CURRENT_VERSION]` and on which `upgradeGeckoProfileToCurrentVersion`
returns without throwing, the root's `meta.version` is `CURRENT_VERSION`, that
is 9, afterwards. -/
theorem C1_version_current_after_success (cm : ConvertMarkers) (p : Profile) (v : Nat)
    (_hv : p.version = some v) (_hle : v ≤ CURRENT_VERSION)
    (hok : (upgradeGeckoProfileToCurrentVersion cm p).thrown = none) :
    (upgradeGeckoProfileToCurrentVersion cm p).profile.version = some CURRENT_VERSION ∧
      CURRENT_VERSION = 9 :=
  ⟨upgrade_returns_version cm p hok, rfl⟩

theorem C1_witness :
    rootV3.version = some 3 ∧ 3 ≤ CURRENT_VERSION ∧
      (upgradeGeckoProfileToCurrentVersion plainMarkers rootV3).thrown = none ∧
      ((upgradeGeckoProfileToCurrentVersion plainMarkers rootV3).profile.version =
          some CURRENT_VERSION ∧ CURRENT_VERSION = 9) :=
  ⟨by decide, by decide, by decide,
    C1_version_current_after_success plainMarkers rootV3 3 (by decide) (by decide) (by decide)⟩

/-- Claim C3. For every profile whose `meta.version` is greater than
`CURRENT_VERSION`, `upgradeGeckoProfileToCurrentVersion` throws the error for a
profile that is too new, whose message reports the version found and the
supported version 9; no upgrader is invoked and the profile, `meta.version`
included, is left exactly as it was. -/
theorem C3_future_version_rejected (cm : ConvertMarkers) (p : Profile) (v : Nat)
    (hv : p.version = some v) (hgt : CURRENT_VERSION < v) :
    upgradeGeckoProfileToCurrentVersion cm p =
        ⟨p, some (Thrown.error (futureVersionMessage v)), []⟩ ∧
      futureVersionMessage v =
        "Unable to parse a Gecko profile of version " ++ toString v ++
          " - are you running an outdated version of perf.html? " ++
          "The most recent version understood by this version of perf.html is version " ++
          "9" ++ ".\n" ++
          "You can try refreshing this page in case perf.html has updated in the meantime." := by
  refine ⟨?_, rfl⟩
  unfold upgradeGeckoProfileToCurrentVersion
  have h9 : v ≠ CURRENT_VERSION := Nat.ne_of_gt hgt
  simp [profileVersionOf_of_version hv, h9, hgt]

theorem C3_witness :
    (rootV5.setVersion (some 10)).version = some 10 ∧ CURRENT_VERSION < 10 ∧
      upgradeGeckoProfileToCurrentVersion plainMarkers (rootV5.setVersion (some 10)) =
        ⟨rootV5.setVersion (some 10), some (Thrown.error (futureVersionMessage 10)), []⟩ :=
  ⟨by decide, by decide,
    (C3_future_version_rejected plainMarkers (rootV5.setVersion (some 10)) 10 (by decide)
      (by decide)).1⟩

/-- Claim C6. `upgradeGeckoProfileToCurrentVersion` is idempotent: a profile whose
`meta.version` is already `CURRENT_VERSION` is returned unchanged with no
upgrader invoked, and after a call that did not throw a second call leaves the
result of the first unchanged, again with no upgrader invoked. -/
theorem C6_idempotent (cm : ConvertMarkers) (p : Profile) :
    (p.version = some CURRENT_VERSION →
      upgradeGeckoProfileToCurrentVersion cm p = ⟨p, none, []⟩) ∧
    ((upgradeGeckoProfileToCurrentVersion cm p).thrown = none →
      upgradeGeckoProfileToCurrentVersion cm (upgradeGeckoProfileToCurrentVersion cm p).profile =
        ⟨(upgradeGeckoProfileToCurrentVersion cm p).profile, none, []⟩) :=
  ⟨fun h => upgrade_current cm p h,
    fun h => upgrade_current cm _ (upgrade_returns_version cm p h)⟩

theorem C6_witness :
    (rootV5.setVersion (some 9)).version = some CURRENT_VERSION ∧
      upgradeGeckoProfileToCurrentVersion plainMarkers (rootV5.setVersion (some 9)) =
        ⟨rootV5.setVersion (some 9), none, []⟩ ∧
      (upgradeGeckoProfileToCurrentVersion plainMarkers rootV3).thrown = none ∧
      upgradeGeckoProfileToCurrentVersion plainMarkers
          (upgradeGeckoProfileToCurrentVersion plainMarkers rootV3).profile =
        ⟨(upgradeGeckoProfileToCurrentVersion plainMarkers rootV3).profile, none, []⟩ :=
  ⟨by decide, (C6_idempotent plainMarkers (rootV5.setVersion (some 9))).1 (by decide),
    by decide, (C6_idempotent plainMarkers rootV3).2 (by decide)⟩

/-- Every target version from 1 to `CURRENT_VERSION` has an upgrader. -/
theorem upgraders_registered (cm : ConvertMarkers) (d : Nat) (h1 : 1 ≤ d)
    (h9 : d ≤ CURRENT_VERSION) : ∃ u, _upgraders cm d = some u := by
  unfold CURRENT_VERSION at h9
  interval_cases d <;> exact ⟨_, rfl⟩

/-- The loop of the driver, started at `dest` with as many iterations allowed
as there are targets left: on return every target from `dest` on has been
invoked and the state is the composition of their upgraders; on a throw the
targets up to the one that threw have been invoked. -/
theorem upgradeLoop_spec (cm : ConvertMarkers) :
    ∀ (n d : Nat) (p : Profile) (tr : List Nat), 1 ≤ d → d + n = CURRENT_VERSION + 1 →
      ((upgradeLoop cm n d p tr).thrown = none →
        (upgradeLoop cm n d p tr).invoked = tr ++ List.range' d n ∧
          composeUpgraders cm (List.range' d n) p = some (upgradeLoop cm n d p tr).profile) ∧
      (∀ e, (upgradeLoop cm n d p tr).thrown = some e →
        ∃ k q u, k < n ∧ (upgradeLoop cm n d p tr).invoked = tr ++ List.range' d (k + 1) ∧
          composeUpgraders cm (List.range' d k) p = some q ∧
          _upgraders cm (d + k) = some u ∧ (u q).thrown = some e ∧
          (upgradeLoop cm n d p tr).profile = (u q).state) := by
  intro n
  induction n with
  | zero =>
    intro d p tr _ _
    simp [upgradeLoop, composeUpgraders]
  | succ n ih =>
    intro d p tr h1 hsum
    have hd9 : d ≤ CURRENT_VERSION := by omega
    obtain ⟨u, hu⟩ := upgraders_registered cm d h1 hd9
    cases hthrown : (u p).thrown with
    | some e0 =>
      have hloop : upgradeLoop cm (n + 1) d p tr = ⟨(u p).state, some e0, tr ++ [d]⟩ := by
        simp [upgradeLoop, hd9, hu, hthrown]
      rw [hloop]
      refine ⟨by simp, ?_⟩
      intro e he
      simp only [Option.some.injEq] at he
      subst he
      exact ⟨0, p, u, by omega, by simp [List.range'], by simp [composeUpgraders],
        by simpa using hu, hthrown, rfl⟩
    | none =>
      have hloop : upgradeLoop cm (n + 1) d p tr =
          upgradeLoop cm n (d + 1) (u p).state (tr ++ [d]) := by
        simp [upgradeLoop, hd9, hu, hthrown]
      rw [hloop]
      obtain ⟨ihok, iherr⟩ := ih (d + 1) (u p).state (tr ++ [d]) (by omega) (by omega)
      constructor
      · intro hnone
        obtain ⟨hinv, hcomp⟩ := ihok hnone
        refine ⟨?_, ?_⟩
        · rw [hinv]; simp [List.range']
        · simp [List.range', composeUpgraders, hu, hthrown, hcomp]
      · intro e he
        obtain ⟨k, q, u1, hk, hinv, hcomp, hu1, hthr, hprof⟩ := iherr e he
        refine ⟨k + 1, q, u1, by omega, ?_, ?_, ?_, hthr, hprof⟩
        · rw [hinv]; simp [List.range']
        · simp [List.range', composeUpgraders, hu, hthrown, hcomp]
        · rw [← hu1]; congr 1; omega

/-- The allowance of iterations given by the driver is never what ends the
loop: a larger one yields the same run. -/
theorem upgradeLoop_allowance (cm : ConvertMarkers) :
    ∀ (n extra d : Nat) (p : Profile) (tr : List Nat), CURRENT_VERSION < d + n →
      upgradeLoop cm (n + extra) d p tr = upgradeLoop cm n d p tr := by
  intro n
  induction n with
  | zero =>
    intro extra d p tr h
    cases extra with
    | zero => rfl
    | succ k =>
      have hd : ¬ d ≤ CURRENT_VERSION := by omega
      simp [upgradeLoop, hd]
  | succ n ih =>
    intro extra d p tr h
    have hrw : n + 1 + extra = (n + extra) + 1 := by omega
    rw [hrw]
    simp only [upgradeLoop]
    have ih1 := fun q t => ih extra (d + 1) q t (by omega)
    simp only [ih1]

/-- The driver on a profile that is older than the current version. -/
theorem upgrade_older (cm : ConvertMarkers) (p : Profile) (h : profileVersionOf p < CURRENT_VERSION) :
    upgradeGeckoProfileToCurrentVersion cm p =
      match (upgradeLoop cm (CURRENT_VERSION - profileVersionOf p) (profileVersionOf p + 1) p
          []).thrown with
      | some e =>
        ⟨(upgradeLoop cm (CURRENT_VERSION - profileVersionOf p) (profileVersionOf p + 1) p
            []).profile, some e,
          (upgradeLoop cm (CURRENT_VERSION - profileVersionOf p) (profileVersionOf p + 1) p
            []).invoked⟩
      | none =>
        ⟨(upgradeLoop cm (CURRENT_VERSION - profileVersionOf p) (profileVersionOf p + 1) p
            []).profile.setVersion (some CURRENT_VERSION), none,
          (upgradeLoop cm (CURRENT_VERSION - profileVersionOf p) (profileVersionOf p + 1) p
            []).invoked⟩ := by
  unfold upgradeGeckoProfileToCurrentVersion
  have h1 : profileVersionOf p ≠ CURRENT_VERSION := Nat.ne_of_lt h
  have h2 : ¬ profileVersionOf p > CURRENT_VERSION := by omega
  simp only [if_neg h1, if_neg h2]

/-- The upgraders invoked by the driver on a profile older than the current
version, and the state it leaves. -/
theorem upgrade_invocations (cm : ConvertMarkers) (p : Profile) (v : Nat)
    (hv : p.version = some v) (hlt : v < CURRENT_VERSION) :
    (upgradeGeckoProfileToCurrentVersion cm p).invoked <+:
        List.range' (v + 1) (CURRENT_VERSION - v) ∧
      (upgradeGeckoProfileToCurrentVersion cm p).invoked ≠ [] ∧
      (∀ d, 1 ≤ d → d ≤ 9 → (_upgraders cm d).isSome = true) ∧
      ((upgradeGeckoProfileToCurrentVersion cm p).thrown = none →
        (upgradeGeckoProfileToCurrentVersion cm p).invoked =
            List.range' (v + 1) (CURRENT_VERSION - v) ∧
          ∃ q, composeUpgraders cm (List.range' (v + 1) (CURRENT_VERSION - v)) p = some q ∧
            (upgradeGeckoProfileToCurrentVersion cm p).profile = q.setVersion (some 9)) ∧
      (∀ e, (upgradeGeckoProfileToCurrentVersion cm p).thrown = some e →
        ∃ k q u, k < CURRENT_VERSION - v ∧
          (upgradeGeckoProfileToCurrentVersion cm p).invoked = List.range' (v + 1) (k + 1) ∧
          composeUpgraders cm (List.range' (v + 1) k) p = some q ∧
          _upgraders cm (v + 1 + k) = some u ∧ (u q).thrown = some e ∧
          (upgradeGeckoProfileToCurrentVersion cm p).profile = (u q).state) := by
  have hpv := profileVersionOf_of_version hv
  have hdrv := upgrade_older cm p (by rw [hpv]; exact hlt)
  rw [hpv] at hdrv
  obtain ⟨hok, herr⟩ := upgradeLoop_spec cm (CURRENT_VERSION - v) (v + 1) p [] (by omega)
    (by omega)
  have hreg : ∀ d, 1 ≤ d → d ≤ 9 → (_upgraders cm d).isSome = true := by
    intro d h1 h9
    obtain ⟨u, hu⟩ := upgraders_registered cm d h1 h9
    simp [hu]
  cases hthrown : (upgradeLoop cm (CURRENT_VERSION - v) (v + 1) p []).thrown with
  | none =>
    rw [hthrown] at hdrv
    obtain ⟨hinv, hcomp⟩ := hok hthrown
    simp only [List.nil_append] at hinv
    rw [hdrv]
    refine ⟨by simp [hinv], ?_, hreg, ?_, by simp⟩
    · rw [hinv]
      have hpos : CURRENT_VERSION - v = (CURRENT_VERSION - v - 1) + 1 := by omega
      rw [hpos]
      simp [List.range']
    · intro _
      exact ⟨hinv, _, hcomp, rfl⟩
  | some e0 =>
    rw [hthrown] at hdrv
    obtain ⟨k, q, u, hk, hinv, hcomp, hu, hthr, hprof⟩ := herr e0 hthrown
    simp only [List.nil_append] at hinv
    rw [hdrv]
    refine ⟨?_, ?_, hreg, by simp, ?_⟩
    · rw [hinv]
      have hsplit : CURRENT_VERSION - v = (CURRENT_VERSION - v - (k + 1)) + (k + 1) := by omega
      rw [hsplit, ← List.range'_append_1 (v + 1) (k + 1) (CURRENT_VERSION - v - (k + 1))]
      exact List.prefix_append _ _
    · rw [hinv]
      simp [List.range']
    · intro e he
      simp only [Option.some.injEq] at he
      subst he
      exact ⟨k, q, u, hk, hinv, hcomp, hu, hthr, hprof⟩


/-- Claim C2, amended. For every profile with `meta.version = v`, `v` below
`CURRENT_VERSION`, the driver invokes the upgraders for the targets `v+1`,
`v+2`, ... in ascending order, each at most once and none with a target at most
`v`, starting with `v+1` and stopping at the first that throws; every target in
`[1, 9]` has a registered upgrader; when no step throws the targets invoked are
exactly `v+1, ..., 9` and the result is the composition of their upgraders
applied to the input, followed by setting the root's `meta.version` to 9; when
a step throws, the profile is left as the throwing upgrader left it. -/
theorem C2_upgraders_in_order (cm : ConvertMarkers) (p : Profile) (v : Nat)
    (hv : p.version = some v) (hlt : v < CURRENT_VERSION) :
    (upgradeGeckoProfileToCurrentVersion cm p).invoked <+:
        List.range' (v + 1) (CURRENT_VERSION - v) ∧
      (upgradeGeckoProfileToCurrentVersion cm p).invoked ≠ [] ∧
      (upgradeGeckoProfileToCurrentVersion cm p).invoked.Pairwise (fun a b => a < b) ∧
      (∀ d ∈ (upgradeGeckoProfileToCurrentVersion cm p).invoked, v < d ∧ d ≤ 9) ∧
      (∀ d, 1 ≤ d → d ≤ 9 → (_upgraders cm d).isSome = true) ∧
      ((upgradeGeckoProfileToCurrentVersion cm p).thrown = none →
        (upgradeGeckoProfileToCurrentVersion cm p).invoked =
            List.range' (v + 1) (CURRENT_VERSION - v) ∧
          ∃ q, composeUpgraders cm (List.range' (v + 1) (CURRENT_VERSION - v)) p = some q ∧
            (upgradeGeckoProfileToCurrentVersion cm p).profile = q.setVersion (some 9)) ∧
      (∀ e, (upgradeGeckoProfileToCurrentVersion cm p).thrown = some e →
        ∃ k q u, k < CURRENT_VERSION - v ∧
          (upgradeGeckoProfileToCurrentVersion cm p).invoked = List.range' (v + 1) (k + 1) ∧
          composeUpgraders cm (List.range' (v + 1) k) p = some q ∧
          _upgraders cm (v + 1 + k) = some u ∧ (u q).thrown = some e ∧
          (upgradeGeckoProfileToCurrentVersion cm p).profile = (u q).state) := by
  obtain ⟨hpre, hne, hreg, hok, herr⟩ := upgrade_invocations cm p v hv hlt
  refine ⟨hpre, hne, ?_, ?_, hreg, hok, herr⟩
  · exact List.Pairwise.sublist hpre.sublist (List.pairwise_lt_range' (v + 1) (CURRENT_VERSION - v))
  · intro d hd
    have hmem := hpre.subset hd
    rw [List.mem_range'_1] at hmem
    unfold CURRENT_VERSION at hmem hlt
    omega

theorem C2_witness :
    rootV3.version = some 3 ∧ 3 < CURRENT_VERSION ∧
      (upgradeGeckoProfileToCurrentVersion plainMarkers rootV3).thrown = none ∧
      (upgradeGeckoProfileToCurrentVersion plainMarkers rootV3).invoked = [4, 5, 6, 7, 8, 9] :=
  ⟨by decide, by decide, by decide,
    ((C2_upgraders_in_order plainMarkers rootV3 3 (by decide) (by decide)).2.2.2.2.2.1
      (by decide)).1⟩

/-- Counterexample to claim C2 as stated. On a profile tagged with version 2 the driver
invokes the upgrader for target 3 only, not those for the targets 3 to 9. -/
theorem C2_counterexample :
    (rootV3.setVersion (some 2)).version = some 2 ∧ 2 < CURRENT_VERSION ∧
      (upgradeGeckoProfileToCurrentVersion plainMarkers (rootV3.setVersion (some 2))).invoked =
        [3] ∧
      (upgradeGeckoProfileToCurrentVersion plainMarkers (rootV3.setVersion (some 2))).invoked ≠
        List.range' (2 + 1) (CURRENT_VERSION - 2) := by
  decide

/-- The driver on the three versions for which no conversion code exists: the
first upgrader it invokes throws and the profile is untouched. -/
theorem upgrade_too_old (cm : ConvertMarkers) (p : Profile) :
    (profileVersionOf p = 0 →
      upgradeGeckoProfileToCurrentVersion cm p =
        ⟨p, some (Thrown.error unversionedMessage), [1]⟩) ∧
    (profileVersionOf p = 1 →
      upgradeGeckoProfileToCurrentVersion cm p =
        ⟨p, some (Thrown.error (veryOldMessage 1)), [2]⟩) ∧
    (profileVersionOf p = 2 →
      upgradeGeckoProfileToCurrentVersion cm p =
        ⟨p, some (Thrown.error (veryOldMessage 2)), [3]⟩) := by
  refine ⟨?_, ?_, ?_⟩ <;> intro h <;>
    simp [upgradeGeckoProfileToCurrentVersion, h, CURRENT_VERSION, upgradeLoop, _upgraders]

/-- Claim C4, amended. For every profile whose `meta.version` is 0, 1 or 2 the
driver fails with the error saying that no conversion code has been written;
for 1 and 2 the message cites that version, for 0 it says that the profile has
no version number. -/
theorem C4_too_old_rejected (cm : ConvertMarkers) (p : Profile) (v : Nat)
    (hv : p.version = some v) (hle : v ≤ 2) :
    (upgradeGeckoProfileToCurrentVersion cm p).thrown =
        some (Thrown.error (if v = 0 then unversionedMessage else veryOldMessage v)) ∧
      unversionedMessage =
        "Gecko profiles without version numbers are very old and no conversion code has been written for that version of the profile format." ∧
      veryOldMessage v =
        "Gecko profile version " ++ toString v ++
          " is very old and no conversion code has been written for that version of the profile format." := by
  have hpv := profileVersionOf_of_version hv
  obtain ⟨h0, h1, h2⟩ := upgrade_too_old cm p
  refine ⟨?_, rfl, rfl⟩
  interval_cases v
  · rw [h0 hpv]; rfl
  · rw [h1 hpv]; rfl
  · rw [h2 hpv]; rfl

theorem C4_witness :
    (rootV3.setVersion (some 1)).version = some 1 ∧ 1 ≤ 2 ∧
      (upgradeGeckoProfileToCurrentVersion plainMarkers (rootV3.setVersion (some 1))).thrown =
        some (Thrown.error (if 1 = 0 then unversionedMessage else veryOldMessage 1)) :=
  ⟨by decide, by decide,
    (C4_too_old_rejected plainMarkers (rootV3.setVersion (some 1)) 1 (by decide) (by decide)).1⟩

/-- Counterexample to claim C4 as stated. A profile whose `meta.version` is 3 is not
rejected: upgrader 4 converts it and the driver returns. -/
theorem C4_counterexample :
    rootV3.version = some 3 ∧
      (upgradeGeckoProfileToCurrentVersion plainMarkers rootV3).thrown = none ∧
      (upgradeGeckoProfileToCurrentVersion plainMarkers rootV3).invoked = [4, 5, 6, 7, 8, 9] := by
  decide

/-- Claim C5, evaluated at a failing input. On the version-5 profile `rootV5`,
which has one subprocess profile tagged with version 5, the driver returns,
the root is tagged with version 9 and the subprocess profile is still tagged
with version 5. -/
theorem C5_nested_version_stale :
    (upgradeGeckoProfileToCurrentVersion plainMarkers rootV5).thrown = none ∧
      (upgradeGeckoProfileToCurrentVersion plainMarkers rootV5).profile.version = some 9 ∧
      (nested rootV5).map Profile.version = [some 5] ∧
      (nested (upgradeGeckoProfileToCurrentVersion plainMarkers rootV5).profile).map
        Profile.version = [some 5] := by
  decide

/-- Claim C7. For every profile whose `meta.version` is absent the driver behaves
as for the same profile with `meta.version = 0`: in both cases it invokes the
upgrader for target 1 and nothing else, fails with the error thrown by that
upgrader, and leaves the profile as it was. -/
theorem C7_absent_version_is_zero (cm : ConvertMarkers) (p : Profile)
    (h : p.version = none) :
    upgradeGeckoProfileToCurrentVersion cm p =
        ⟨p, some (Thrown.error unversionedMessage), [1]⟩ ∧
      upgradeGeckoProfileToCurrentVersion cm (p.setVersion (some 0)) =
        ⟨p.setVersion (some 0), some (Thrown.error unversionedMessage), [1]⟩ := by
  constructor
  · apply (upgrade_too_old cm p).1
    unfold Profile.version at h
    simp [profileVersionOf, h, UNANNOTATED_VERSION]
  · apply (upgrade_too_old cm _).1
    exact profileVersionOf_of_version (setVersion_version _ _)

theorem C7_witness :
    (rootV3.setVersion none).version = none ∧
      (upgradeGeckoProfileToCurrentVersion plainMarkers (rootV3.setVersion none)).thrown =
        (upgradeGeckoProfileToCurrentVersion plainMarkers
          ((rootV3.setVersion none).setVersion (some 0))).thrown :=
  ⟨by decide, by
    rw [(C7_absent_version_is_zero plainMarkers (rootV3.setVersion none) (by decide)).1,
      (C7_absent_version_is_zero plainMarkers (rootV3.setVersion none) (by decide)).2]⟩

/-! ## Which upgraders write `meta.version` -/

/-- Claim C8, amended. The upgraders for the targets 6, 7, 8 and 9 do not write
`meta.version`: whatever the profile and whether or not they throw, they leave
`meta.version` of the root and of every subprocess profile nested under
`processes` unchanged.  The upgraders for the targets 4 and 5 do write it: when
upgrader 4 returns, the root and every subprocess profile embedded in `threads`
are tagged with version 4, and after upgrader 5 the root and every subprocess
profile nested under `processes` are tagged with version 5. -/
theorem C8_version_writes (cm : ConvertMarkers) :
    (∀ d u, 6 ≤ d → d ≤ 9 → _upgraders cm d = some u → ∀ p : Profile,
      (u p).state.version = p.version ∧
        (nested (u p).state).map Profile.version = (nested p).map Profile.version) ∧
    (∀ u, _upgraders cm 4 = some u → ∀ p : Profile, (u p).thrown = none →
      (u p).state.version = some 4 ∧ ∀ q ∈ embedded (u p).state, q.version = some 4) ∧
    (∀ u, _upgraders cm 5 = some u → ∀ p : Profile,
      (u p).thrown = none ∧ (u p).state.version = some 5 ∧
        ∀ q ∈ nested (u p).state, q.version = some 5) := by
  refine ⟨?_, ?_, ?_⟩
  · intro d u h6 h9 hu p
    interval_cases d
    · simp only [_upgraders, Option.some.injEq] at hu
      subst hu
      exact convertSix_versions.1 p
    · simp only [_upgraders, Option.some.injEq] at hu
      subst hu
      exact convertSeven_versions.1 p
    · simp only [_upgraders, Option.some.injEq] at hu
      subst hu
      exact convertEight_versions.1 p
    · simp only [_upgraders, Option.some.injEq] at hu
      subst hu
      exact (convertNine_versions cm).1 p
  · intro u hu p hok
    simp only [_upgraders, Option.some.injEq] at hu
    subst hu
    exact convertFour_versions.1 p hok
  · intro u hu p
    simp only [_upgraders, Option.some.injEq] at hu
    subst hu
    exact ⟨rfl, convertFive_versions.1 p⟩

theorem C8_witness :
    (convertToVersionSixRecursive rootV5).state.version = rootV5.version ∧
      (convertToVersionFourRecursive rootV3).thrown = none ∧
      (convertToVersionFourRecursive rootV3).state.version = some 4 :=
  ⟨((C8_version_writes plainMarkers).1 6 convertToVersionSixRecursive (by decide) (by decide)
      rfl rootV5).1,
    by decide,
    ((C8_version_writes plainMarkers).2.1 convertToVersionFourRecursive rfl rootV3
      (by decide)).1⟩

/-- Counterexample to claim C8 as stated. Upgrader 4, run on the version-3
profile `rootV3`, returns and has changed `meta.version` of the root and of the
embedded subprocess profile from 3 to 4. -/
theorem C8_counterexample :
    rootV3.version = some 3 ∧ (embedded rootV3).map Profile.version = [some 3] ∧
      (_upgraders plainMarkers 4).map (fun u => (u rootV3).thrown) = some none ∧
      (_upgraders plainMarkers 4).map (fun u => (u rootV3).state.version) = some (some 4) ∧
      (_upgraders plainMarkers 4).map
        (fun u => (embedded (u rootV3).state).map Profile.version) = some [some 4] := by
  decide

/-! ## Upgrader 5 -/

theorem threadData_convertFiveEntries (ts : List ThreadEntry) :
    threadData (convertFiveEntries ts) = ts.filter (fun e => !e.isString) := by
  induction ts with
  | nil => simp [convertFiveEntries, threadData]
  | cons e rest ih =>
    cases e with
    | thread t => simp [convertFiveEntries, threadData, ThreadEntry.isString, ih]
    | encoded q => simp [convertFiveEntries, threadData, ThreadEntry.isString, ih]

theorem processData_convertFiveEntries (ts : List ThreadEntry) :
    processData (convertFiveEntries ts) =
      (stringEntries ts).map convertToVersionFiveRecursive := by
  induction ts with
  | nil => simp [convertFiveEntries, processData, stringEntries]
  | cons e rest ih =>
    cases e with
    | thread t => simp [convertFiveEntries, processData, stringEntries, ih]
    | encoded q => simp [convertFiveEntries, processData, stringEntries, ih]

theorem length_filter_add_stringEntries (ts : List ThreadEntry) :
    (ts.filter (fun e => !e.isString)).length + (stringEntries ts).length = ts.length := by
  induction ts with
  | nil => simp [stringEntries]
  | cons e rest ih =>
    cases e with
    | thread t =>
      have h1 : (ThreadEntry.thread t).isString = false := rfl
      simp only [stringEntries, List.filter_cons, h1, Bool.not_false, if_true, List.length_cons]
      omega
    | encoded q =>
      have h1 : (ThreadEntry.encoded q).isString = true := rfl
      simp only [stringEntries, List.filter_cons, h1, Bool.not_true, List.length_cons]
      simp only [Bool.false_eq_true, if_false]
      omega

/-- Claim C9. Upgrader 5 partitions `threads`: it returns on every profile `p`,
the new `p.threads` is the subsequence of the entries of the old `p.threads`
that are not strings, in their order, and `p.processes` is the sequence of the
profiles decoded from the string entries, each converted by the same function,
in their order; hence the two lengths add up to the old length of `threads`
and no string is left in `threads`. -/
theorem C9_upgrader5_partitions (cm : ConvertMarkers) (p : Profile) :
    _upgraders cm 5 = some (fun q => ⟨convertToVersionFiveRecursive q, none⟩) ∧
      (convertToVersionFiveRecursive p).threads = p.threads.filter (fun e => !e.isString) ∧
      (convertToVersionFiveRecursive p).processes =
        some ((stringEntries p.threads).map convertToVersionFiveRecursive) ∧
      (convertToVersionFiveRecursive p).threads.length +
          ((convertToVersionFiveRecursive p).processes.getD []).length = p.threads.length ∧
      ∀ e ∈ (convertToVersionFiveRecursive p).threads, e.isString = false := by
  have hthreads : (convertToVersionFiveRecursive p).threads =
      p.threads.filter (fun e => !e.isString) := by
    cases p with
    | mk m l ts ps pr =>
      simp only [convertToVersionFiveRecursive, Profile.threads, threadData_convertFiveEntries]
  have hprocesses : (convertToVersionFiveRecursive p).processes =
      some ((stringEntries p.threads).map convertToVersionFiveRecursive) := by
    cases p with
    | mk m l ts ps pr =>
      simp only [convertToVersionFiveRecursive, Profile.threads, Profile.processes,
        processData_convertFiveEntries]
  refine ⟨rfl, hthreads, hprocesses, ?_, ?_⟩
  · rw [hthreads, hprocesses]
    simp only [Option.getD_some, List.length_map]
    exact length_filter_add_stringEntries p.threads
  · intro e he
    rw [hthreads] at he
    simpa using (List.mem_filter.mp he).2

/-! ## Upgrader 6 -/

/-- A thread loop whose body never throws returns on a sequence without string
entries, and has run the body on every thread record. -/
theorem forEachThread_returns (body : Thread → Res Thread)
    (hbody : ∀ t, (body t).thrown = none) (ts : List ThreadEntry)
    (hall : ts.all (fun e => !e.isString) = true) :
    (forEachThread body ts).thrown = none ∧
      threadRecords (forEachThread body ts).state =
        (threadRecords ts).map (fun t => (body t).state) ∧
      (forEachThread body ts).state.all (fun e => !e.isString) = true := by
  induction ts with
  | nil => simp [forEachThread, threadRecords]
  | cons e rest ih =>
    cases e with
    | encoded q => simp [ThreadEntry.isString] at hall
    | thread t =>
      have hrest : rest.all (fun e => !e.isString) = true := by
        simp only [List.all_cons, Bool.and_eq_true] at hall
        exact hall.2
      obtain ⟨h1, h2, h3⟩ := ih hrest
      simp only [forEachThread, hbody t]
      refine ⟨h1, ?_, ?_⟩
      · simp [threadRecords, h2]
      · simp only [List.all_cons, h3, Bool.and_true]
        rfl

theorem lookup_filter_key (key k : String) (l : List (String × Nat)) :
    (l.filter (fun kv => kv.1 != key)).lookup k = if k = key then none else l.lookup k := by
  induction l with
  | nil => simp
  | cons kv rest ih =>
    obtain ⟨a, b⟩ := kv
    by_cases ha : a = key
    · subst ha
      by_cases hk : k = a
      · subst hk
        simpa [List.filter_cons] using ih
      · have hne : (k == a) = false := by simpa using hk
        simp only [List.filter_cons, bne_self_eq_false, Bool.false_eq_true, if_false, ih, hk,
          List.lookup_cons, hne]
    · have hne : (a != key) = true := by simpa using ha
      simp only [List.filter_cons, hne, if_true, List.lookup_cons, ih]
      by_cases hk : k = a
      · subst hk
        simp [ha]
      · have hne2 : (k == a) = false := by simpa using hk
        simp [hne2]

/-- The threads of a sequence of profiles and of everything nested in them. -/
theorem flatMap_nestedOfList_cons (q : Profile) (rest : List Profile) :
    (nestedOfList (q :: rest)).flatMap (fun x => threadRecords x.threads) =
      allThreads q ++ (nestedOfList rest).flatMap (fun x => threadRecords x.threads) := by
  simp [nestedOfList, allThreads, List.flatMap_append]

theorem convertSix_allThreads :
    (∀ p : Profile, structured p = true →
      (convertToVersionSixRecursive p).thrown = none ∧
        allThreads (convertToVersionSixRecursive p).state =
          (allThreads p).map (fun t => (convertSixThread t).state)) ∧
    (∀ subs : List Profile, structuredList subs = true →
      (convertSixEach subs).thrown = none ∧
        (nestedOfList (convertSixEach subs).state).flatMap (fun x => threadRecords x.threads) =
          ((nestedOfList subs).flatMap (fun x => threadRecords x.threads)).map
            (fun t => (convertSixThread t).state)) := by
  apply processes_induction
  · intro m l ts ps pr ih hs
    simp only [structured, Bool.and_eq_true] at hs
    obtain ⟨hts, hps⟩ := hs
    obtain ⟨h1, h2, _⟩ := forEachThread_returns convertSixThread (fun _ => rfl) ts hts
    cases ps with
    | none => simp [structuredProcesses] at hps
    | some subs =>
      simp only [structuredProcesses] at hps
      obtain ⟨h3, h4⟩ := ih subs rfl hps
      simp only [convertToVersionSixRecursive, h1, convertSixProcesses, h3]
      refine ⟨trivial, ?_⟩
      simp only [allThreads, threads_mk, nested, nestedOfProcesses, h2, h4, List.map_append]
  · intro _
    simp [convertSixEach, nestedOfList]
  · intro q rest ihq ihrest hs
    simp only [structuredList, Bool.and_eq_true] at hs
    obtain ⟨hq1, hq2⟩ := ihq hs.1
    obtain ⟨hr1, hr2⟩ := ihrest hs.2
    simp only [convertSixEach, hq1, hr1]
    refine ⟨trivial, ?_⟩
    rw [flatMap_nestedOfList_cons, flatMap_nestedOfList_cons, hq2, hr2, List.map_append]

/-- Claim C10. Upgrader 6 drops `frameNumber` and truncates rows: on every
profile in the version-5 shape it returns, and for every thread of the root and
of every subprocess profile nested at any depth, taken in order, the new
`samples.schema` is the old one without the `frameNumber` key, all other
entries unchanged, and every row of the new `samples.data` consists of the
first `min(5, n)` cells of the old `n`-cell row; a row of 6 cells has 5
afterwards. -/
theorem C10_upgrader6_drops_frameNumber (cm : ConvertMarkers) (p : Profile)
    (h : structured p = true) :
    _upgraders cm 6 = some convertToVersionSixRecursive ∧
      (convertToVersionSixRecursive p).thrown = none ∧
      List.Forall₂
        (fun t t1 : Thread =>
          t1.samples.schema = t.samples.schema.filter (fun kv => kv.1 != "frameNumber") ∧
            t1.samples.schema.lookup "frameNumber" = none ∧
            (∀ k, k ≠ "frameNumber" → t1.samples.schema.lookup k = t.samples.schema.lookup k) ∧
            List.Forall₂
              (fun row row1 : List JVal =>
                row1 = row.take (min 5 row.length) ∧ (row.length = 6 → row1.length = 5))
              t.samples.data t1.samples.data)
        (allThreads p) (allThreads (convertToVersionSixRecursive p).state) := by
  obtain ⟨h1, h2⟩ := convertSix_allThreads.1 p h
  refine ⟨rfl, h1, ?_⟩
  rw [h2, List.forall₂_map_right_iff, List.forall₂_same]
  intro t _
  refine ⟨rfl, ?_, ?_, ?_⟩
  · simp [convertSixThread, lookup_filter_key]
  · intro k hk
    simp [convertSixThread, lookup_filter_key, hk]
  · simp only [convertSixThread]
    rw [List.forall₂_map_right_iff, List.forall₂_same]
    intro row _
    constructor
    · rcases Nat.le_total 5 row.length with h5 | h5
      · rw [Nat.min_eq_left h5]
      · rw [Nat.min_eq_right h5, List.take_of_length_le h5, List.take_of_length_le (le_refl _)]
    · intro h6
      simp [h6]

theorem C10_witness :
    structured rootV5 = true ∧
      (convertToVersionSixRecursive rootV5).thrown = none ∧
      (allThreads (convertToVersionSixRecursive rootV5).state).map
          (fun t => t.samples.data.map List.length) = [[5], [5]] ∧
      (allThreads rootV5).map (fun t => t.samples.data.map List.length) = [[6], [6]] :=
  ⟨by decide, (C10_upgrader6_drops_frameNumber plainMarkers rootV5 (by decide)).2.1,
    by decide, by decide⟩

/-! ## Failure on a profile that is too old -/

/-- Claim C18. Failure on a profile that is too old is atomic: for every
profile whose `meta.version` is absent, 0, 1 or 2 the driver throws from the
first step it attempts, the upgrader for target 1, 1, 2 or 3 respectively,
which throws without touching its argument; the profile, `meta.version`
included, is left exactly as it was. -/
theorem C18_too_old_failure_atomic (cm : ConvertMarkers) (p : Profile)
    (h : p.version = none ∨ p.version = some 0 ∨ p.version = some 1 ∨ p.version = some 2) :
    (upgradeGeckoProfileToCurrentVersion cm p).profile = p ∧
      (upgradeGeckoProfileToCurrentVersion cm p).invoked = [profileVersionOf p + 1] ∧
      (∃ message,
        (upgradeGeckoProfileToCurrentVersion cm p).thrown = some (Thrown.error message)) ∧
      (∀ d u, 1 ≤ d → d ≤ 3 → _upgraders cm d = some u →
        ∀ q : Profile, (u q).state = q ∧ (u q).thrown ≠ none) := by
  obtain ⟨h0, h1, h2⟩ := upgrade_too_old cm p
  have hups : ∀ d u, 1 ≤ d → d ≤ 3 → _upgraders cm d = some u →
      ∀ q : Profile, (u q).state = q ∧ (u q).thrown ≠ none := by
    intro d u hd1 hd3 hu q
    interval_cases d <;>
      (simp only [_upgraders, Option.some.injEq] at hu; subst hu; exact ⟨rfl, by simp⟩)
  rcases h with h | h | h | h
  · have hpv : profileVersionOf p = 0 := by
      unfold Profile.version at h
      simp [profileVersionOf, h, UNANNOTATED_VERSION]
    rw [h0 hpv, hpv]
    exact ⟨rfl, rfl, ⟨_, rfl⟩, hups⟩
  · have hpv := profileVersionOf_of_version h
    rw [h0 hpv, hpv]
    exact ⟨rfl, rfl, ⟨_, rfl⟩, hups⟩
  · have hpv := profileVersionOf_of_version h
    rw [h1 hpv, hpv]
    exact ⟨rfl, rfl, ⟨_, rfl⟩, hups⟩
  · have hpv := profileVersionOf_of_version h
    rw [h2 hpv, hpv]
    exact ⟨rfl, rfl, ⟨_, rfl⟩, hups⟩

/-- Claim C18 applied to the profile `rootV3` tagged with version 2. -/
theorem C18_witness :
    (rootV3.setVersion (some 2)).version = some 2 ∧
      (upgradeGeckoProfileToCurrentVersion plainMarkers (rootV3.setVersion (some 2))).profile =
        rootV3.setVersion (some 2) ∧
      (upgradeGeckoProfileToCurrentVersion plainMarkers (rootV3.setVersion (some 2))).invoked =
        [3] :=
  ⟨by decide,
    (C18_too_old_failure_atomic plainMarkers (rootV3.setVersion (some 2))
      (Or.inr (Or.inr (Or.inr (by decide))))).1,
    (C18_too_old_failure_atomic plainMarkers (rootV3.setVersion (some 2))
      (Or.inr (Or.inr (Or.inr (by decide))))).2.1⟩

/-! ## The tree after upgrader 5 -/

/-- What `structured` says, profile by profile. -/
theorem structured_explicit :
    (∀ p : Profile, structured p = true →
      ∀ q ∈ p :: nested p, q.processes.isSome = true ∧ ∀ e ∈ q.threads, e.isString = false) ∧
    (∀ subs : List Profile, structuredList subs = true →
      ∀ q ∈ nestedOfList subs,
        q.processes.isSome = true ∧ ∀ e ∈ q.threads, e.isString = false) := by
  apply processes_induction
  · intro m l ts ps pr ih hs q hq
    simp only [structured, Bool.and_eq_true] at hs
    obtain ⟨hts, hps⟩ := hs
    cases ps with
    | none => simp [structuredProcesses] at hps
    | some subs =>
      simp only [structuredProcesses] at hps
      simp only [List.mem_cons, nested, nestedOfProcesses] at hq
      rcases hq with hq | hq
      · subst hq
        refine ⟨rfl, ?_⟩
        intro e he
        rw [threads_mk] at he
        have := List.all_eq_true.mp hts e he
        simpa using this
      · exact ih subs rfl hps q hq
  · intro _ q hq
    simp [nestedOfList] at hq
  · intro q0 rest ihq ihrest hs q hq
    simp only [structuredList, Bool.and_eq_true] at hs
    simp only [nestedOfList, List.mem_cons, List.mem_append] at hq
    rcases hq with hq | hq | hq
    · exact ihq hs.1 q (by simp [hq])
    · exact ihq hs.1 q (List.mem_cons_of_mem _ hq)
    · exact ihrest hs.2 q hq

theorem convertFive_structured :
    (∀ p : Profile, structured (convertToVersionFiveRecursive p) = true) ∧
    (∀ ts : List ThreadEntry,
      structuredList (processData (convertFiveEntries ts)) = true) := by
  apply threads_induction
  · intro m l ts ps pr ih
    simp only [convertToVersionFiveRecursive, structured, structuredProcesses, ih,
      Bool.and_true, threadData_convertFiveEntries]
    rw [List.all_eq_true]
    intro e he
    exact (List.mem_filter.mp he).2
  · simp [convertFiveEntries, processData, structuredList]
  · intro t rest ih
    simpa [convertFiveEntries, processData] using ih
  · intro q rest ihq ih
    simp [convertFiveEntries, processData, structuredList, ihq, ih]

/-- Claim C19. After upgrader 5 the whole tree is free of strings and fully
structured: upgrader 5 returns, and at the root and at every subprocess profile
nested at any depth `processes` is present and no entry of `threads` is a
string; the entries of `processes` are decoded profiles at every level. -/
theorem C19_upgrader5_structured (cm : ConvertMarkers) (p : Profile) :
    _upgraders cm 5 = some (fun q => ⟨convertToVersionFiveRecursive q, none⟩) ∧
      structured (convertToVersionFiveRecursive p) = true ∧
      ∀ q ∈ convertToVersionFiveRecursive p :: nested (convertToVersionFiveRecursive p),
        q.processes.isSome = true ∧ ∀ e ∈ q.threads, e.isString = false :=
  ⟨rfl, convertFive_structured.1 p,
    structured_explicit.1 _ (convertFive_structured.1 p)⟩

/-! ## Upgrader 7 applied twice -/

/-- Claim C20. Upgrader 7 is not idempotent: on the version-6 profile `rootV6`,
which has a marker named `DOMEvent` with payload `{type: "click"}`, upgrader 7
returns both times and the second application gives a different profile; after
one application `eventType` is `"click"`, after two it is `"DOMEvent"` and the
original event type is lost. -/
theorem C20_upgrader7_not_idempotent :
    ∃ p : Profile, p.version = some 6 ∧ structured p = true ∧
      _upgraders plainMarkers 7 = some convertToVersionSevenRecursive ∧
      markerPayloadProp "type" p = [[some "click"]] ∧
      (convertToVersionSevenRecursive p).thrown = none ∧
      (convertToVersionSevenRecursive (convertToVersionSevenRecursive p).state).thrown = none ∧
      markerPayloadProp "eventType" (convertToVersionSevenRecursive p).state =
        [[some "click"]] ∧
      markerPayloadProp "eventType"
          (convertToVersionSevenRecursive (convertToVersionSevenRecursive p).state).state =
        [[some "DOMEvent"]] ∧
      (convertToVersionSevenRecursive (convertToVersionSevenRecursive p).state).state ≠
        (convertToVersionSevenRecursive p).state := by
  refine ⟨rootV6, by decide, by decide, rfl, by decide, by decide, by decide, by decide,
    by decide, ?_⟩
  intro h
  have hobs := congrArg (markerPayloadProp "eventType") h
  revert hobs
  decide

/-! ## The threads of the tree under upgraders 7, 8 and 9 -/

/-- A thread loop returns on a sequence without string entries when its body
returns on every thread record of the sequence, and has then run the body on
each of them. -/
theorem forEachThread_returns_of (body : Thread → Res Thread) (ts : List ThreadEntry)
    (hall : ts.all (fun e => !e.isString) = true)
    (hbody : ∀ t ∈ threadRecords ts, (body t).thrown = none) :
    (forEachThread body ts).thrown = none ∧
      threadRecords (forEachThread body ts).state =
        (threadRecords ts).map (fun t => (body t).state) := by
  induction ts with
  | nil => simp [forEachThread, threadRecords]
  | cons e rest ih =>
    cases e with
    | encoded q => simp [ThreadEntry.isString] at hall
    | thread t =>
      have hrest : rest.all (fun e => !e.isString) = true := by
        simp only [List.all_cons, Bool.and_eq_true] at hall
        exact hall.2
      have ht : (body t).thrown = none := hbody t (by simp [threadRecords])
      obtain ⟨h1, h2⟩ := ih hrest (fun x hx => hbody x (by simp [threadRecords, hx]))
      simp only [forEachThread, ht]
      exact ⟨h1, by simp [threadRecords, h2]⟩

theorem convertSeven_allThreads :
    (∀ p : Profile, structured p = true →
      (∀ t ∈ allThreads p, (convertSevenThread t).thrown = none) →
      (convertToVersionSevenRecursive p).thrown = none ∧
        allThreads (convertToVersionSevenRecursive p).state =
          (allThreads p).map (fun t => (convertSevenThread t).state)) ∧
    (∀ subs : List Profile, structuredList subs = true →
      (∀ t ∈ (nestedOfList subs).flatMap (fun x => threadRecords x.threads),
        (convertSevenThread t).thrown = none) →
      (convertSevenEach subs).thrown = none ∧
        (nestedOfList (convertSevenEach subs).state).flatMap
            (fun x => threadRecords x.threads) =
          ((nestedOfList subs).flatMap (fun x => threadRecords x.threads)).map
            (fun t => (convertSevenThread t).state)) := by
  apply processes_induction
  · intro m l ts ps pr ih hs hbody
    simp only [structured, Bool.and_eq_true] at hs
    obtain ⟨hts, hps⟩ := hs
    cases ps with
    | none => simp [structuredProcesses] at hps
    | some subs =>
      simp only [structuredProcesses] at hps
      simp only [allThreads, threads_mk, nested, nestedOfProcesses, List.mem_append] at hbody
      obtain ⟨h1, h2⟩ := forEachThread_returns_of convertSevenThread ts hts
        (fun t ht => hbody t (Or.inl ht))
      obtain ⟨h3, h4⟩ := ih subs rfl hps (fun t ht => hbody t (Or.inr ht))
      simp only [convertToVersionSevenRecursive, h1, convertSevenProcesses, h3]
      refine ⟨trivial, ?_⟩
      simp only [allThreads, threads_mk, nested, nestedOfProcesses, h2, h4, List.map_append]
  · intro _ _
    simp [convertSevenEach, nestedOfList]
  · intro q rest ihq ihrest hs hbody
    simp only [structuredList, Bool.and_eq_true] at hs
    rw [flatMap_nestedOfList_cons] at hbody
    obtain ⟨hq1, hq2⟩ := ihq hs.1 (fun t ht => hbody t (List.mem_append_left _ ht))
    obtain ⟨hr1, hr2⟩ := ihrest hs.2 (fun t ht => hbody t (List.mem_append_right _ ht))
    simp only [convertSevenEach, hq1, hr1]
    refine ⟨trivial, ?_⟩
    rw [flatMap_nestedOfList_cons, flatMap_nestedOfList_cons, hq2, hr2, List.map_append]

theorem convertEight_allThreads :
    (∀ p : Profile, structured p = true →
      (∀ t ∈ allThreads p, (convertEightThread t).thrown = none) →
      (convertToVersionEightRecursive p).thrown = none ∧
        allThreads (convertToVersionEightRecursive p).state =
          (allThreads p).map (fun t => (convertEightThread t).state)) ∧
    (∀ subs : List Profile, structuredList subs = true →
      (∀ t ∈ (nestedOfList subs).flatMap (fun x => threadRecords x.threads),
        (convertEightThread t).thrown = none) →
      (convertEightEach subs).thrown = none ∧
        (nestedOfList (convertEightEach subs).state).flatMap
            (fun x => threadRecords x.threads) =
          ((nestedOfList subs).flatMap (fun x => threadRecords x.threads)).map
            (fun t => (convertEightThread t).state)) := by
  apply processes_induction
  · intro m l ts ps pr ih hs hbody
    simp only [structured, Bool.and_eq_true] at hs
    obtain ⟨hts, hps⟩ := hs
    cases ps with
    | none => simp [structuredProcesses] at hps
    | some subs =>
      simp only [structuredProcesses] at hps
      simp only [allThreads, threads_mk, nested, nestedOfProcesses, List.mem_append] at hbody
      obtain ⟨h1, h2⟩ := forEachThread_returns_of convertEightThread ts hts
        (fun t ht => hbody t (Or.inl ht))
      obtain ⟨h3, h4⟩ := ih subs rfl hps (fun t ht => hbody t (Or.inr ht))
      simp only [convertToVersionEightRecursive, h1, convertEightProcesses, h3]
      refine ⟨trivial, ?_⟩
      simp only [allThreads, threads_mk, nested, nestedOfProcesses, h2, h4, List.map_append]
  · intro _ _
    simp [convertEightEach, nestedOfList]
  · intro q rest ihq ihrest hs hbody
    simp only [structuredList, Bool.and_eq_true] at hs
    rw [flatMap_nestedOfList_cons] at hbody
    obtain ⟨hq1, hq2⟩ := ihq hs.1 (fun t ht => hbody t (List.mem_append_left _ ht))
    obtain ⟨hr1, hr2⟩ := ihrest hs.2 (fun t ht => hbody t (List.mem_append_right _ ht))
    simp only [convertEightEach, hq1, hr1]
    refine ⟨trivial, ?_⟩
    rw [flatMap_nestedOfList_cons, flatMap_nestedOfList_cons, hq2, hr2, List.map_append]

theorem convertNine_allThreads (cm : ConvertMarkers) :
    (∀ p : Profile, structured p = true →
      (∀ t ∈ allThreads p, (convertNineThread cm t).thrown = none) →
      (convertToVersionNineRecursive cm p).thrown = none ∧
        allThreads (convertToVersionNineRecursive cm p).state =
          (allThreads p).map (fun t => (convertNineThread cm t).state)) ∧
    (∀ subs : List Profile, structuredList subs = true →
      (∀ t ∈ (nestedOfList subs).flatMap (fun x => threadRecords x.threads),
        (convertNineThread cm t).thrown = none) →
      (convertNineEach cm subs).thrown = none ∧
        (nestedOfList (convertNineEach cm subs).state).flatMap
            (fun x => threadRecords x.threads) =
          ((nestedOfList subs).flatMap (fun x => threadRecords x.threads)).map
            (fun t => (convertNineThread cm t).state)) := by
  apply processes_induction
  · intro m l ts ps pr ih hs hbody
    simp only [structured, Bool.and_eq_true] at hs
    obtain ⟨hts, hps⟩ := hs
    cases ps with
    | none => simp [structuredProcesses] at hps
    | some subs =>
      simp only [structuredProcesses] at hps
      simp only [allThreads, threads_mk, nested, nestedOfProcesses, List.mem_append] at hbody
      obtain ⟨h1, h2⟩ := forEachThread_returns_of (convertNineThread cm) ts hts
        (fun t ht => hbody t (Or.inl ht))
      obtain ⟨h3, h4⟩ := ih subs rfl hps (fun t ht => hbody t (Or.inr ht))
      simp only [convertToVersionNineRecursive, h1, convertNineProcesses, h3]
      refine ⟨trivial, ?_⟩
      simp only [allThreads, threads_mk, nested, nestedOfProcesses, h2, h4, List.map_append]
  · intro _ _
    simp [convertNineEach, nestedOfList]
  · intro q rest ihq ihrest hs hbody
    simp only [structuredList, Bool.and_eq_true] at hs
    rw [flatMap_nestedOfList_cons] at hbody
    obtain ⟨hq1, hq2⟩ := ihq hs.1 (fun t ht => hbody t (List.mem_append_left _ ht))
    obtain ⟨hr1, hr2⟩ := ihrest hs.2 (fun t ht => hbody t (List.mem_append_right _ ht))
    simp only [convertNineEach, hq1, hr1]
    refine ⟨trivial, ?_⟩
    rw [flatMap_nestedOfList_cons, flatMap_nestedOfList_cons, hq2, hr2, List.map_append]

/-! ## Upgrader 8 -/

theorem convertEight_defaults :
    (∀ p : Profile, (convertToVersionEightRecursive p).thrown = none →
      ∀ q ∈ (convertToVersionEightRecursive p).state ::
          nested (convertToVersionEightRecursive p).state,
        q.pausedRanges = some [] ∧ q.meta.shutdownTime = some JVal.null) ∧
    (∀ subs : List Profile, (convertEightEach subs).thrown = none →
      ∀ q ∈ nestedOfList (convertEightEach subs).state,
        q.pausedRanges = some [] ∧ q.meta.shutdownTime = some JVal.null) := by
  apply processes_induction
  · intro m l ts ps pr ih
    simp only [convertToVersionEightRecursive]
    split
    · simp
    · cases ps with
      | none => simp [convertEightProcesses]
      | some subs =>
        simp only [convertEightProcesses]
        intro hnone q hq
        simp only [List.mem_cons, nested, nestedOfProcesses] at hq
        rcases hq with hq | hq
        · subst hq
          exact ⟨rfl, rfl⟩
        · exact ih subs rfl hnone q hq
  · intro _ q hq
    simp [convertEightEach, nestedOfList] at hq
  · intro q0 rest ihq ihrest
    simp only [convertEightEach]
    split
    · simp
    · rename_i hq0
      intro hrest q hq
      simp only [nestedOfList, List.mem_cons, List.mem_append] at hq
      rcases hq with hq | hq | hq
      · exact ihq hq0 q (by simp [hq])
      · exact ihq hq0 q (List.mem_cons_of_mem _ hq)
      · exact ihrest hrest q hq

/-- Claim C12. Upgrader 8 installs the documented defaults everywhere: on every
profile in the version-7 shape it returns, the root and every subprocess
profile nested at any depth have `pausedRanges = []` and
`meta.shutdownTime = null`, and every thread of every such profile has
`registerTime = 0` and `unregisterTime = null`. -/
theorem C12_upgrader8_defaults (cm : ConvertMarkers) (p : Profile)
    (h : structured p = true) :
    _upgraders cm 8 = some convertToVersionEightRecursive ∧
      (convertToVersionEightRecursive p).thrown = none ∧
      (∀ q ∈ (convertToVersionEightRecursive p).state ::
          nested (convertToVersionEightRecursive p).state,
        q.pausedRanges = some [] ∧ q.meta.shutdownTime = some JVal.null) ∧
      (∀ t ∈ allThreads (convertToVersionEightRecursive p).state,
        t.registerTime = some (JVal.num 0) ∧ t.unregisterTime = some JVal.null) ∧
      (allThreads (convertToVersionEightRecursive p).state).length = (allThreads p).length := by
  obtain ⟨h1, h2⟩ := convertEight_allThreads.1 p h (fun _ _ => rfl)
  refine ⟨rfl, h1, convertEight_defaults.1 p h1, ?_, ?_⟩
  · intro t ht
    rw [h2] at ht
    obtain ⟨t0, _, ht0⟩ := List.mem_map.mp ht
    subst ht0
    exact ⟨rfl, rfl⟩
  · rw [h2, List.length_map]

/-- Claim C12 applied to the profile `rootV5`, which has one subprocess. -/
theorem C12_witness :
    structured rootV5 = true ∧
      (convertToVersionEightRecursive rootV5).thrown = none ∧
      (allThreads (convertToVersionEightRecursive rootV5).state).length = 2 ∧
      ∀ t ∈ allThreads (convertToVersionEightRecursive rootV5).state,
        t.registerTime = some (JVal.num 0) ∧ t.unregisterTime = some JVal.null :=
  ⟨by decide, (C12_upgrader8_defaults plainMarkers rootV5 (by decide)).2.1, by decide,
    (C12_upgrader8_defaults plainMarkers rootV5 (by decide)).2.2.2.1⟩

/-! ## Upgrader 9 -/

theorem getProp_of_not_truthy (key : String) (d : JVal) (h : d.truthy = false) :
    d.getProp key = JVal.undefined := by
  cases d <;> simp [JVal.truthy] at h <;> rfl

theorem upgradeMarker_spec (cm : ConvertMarkers) (d : JVal) :
    (d.getProp "type" = JVal.str "GCMinor" → upgradeMarker cm d = cm.upgradeGCMinorMarker d) ∧
    (d.getProp "type" = JVal.str "GCMajor" →
      upgradeMarker cm d = cm.upgradeGCMajorMarker_Gecko8To9 d) ∧
    (d.getProp "type" ≠ JVal.str "GCMinor" → d.getProp "type" ≠ JVal.str "GCMajor" →
      upgradeMarker cm d = d) := by
  refine ⟨?_, ?_, ?_⟩
  · intro h
    simp [upgradeMarker, h]
  · intro h
    simp [upgradeMarker, h]
  · intro h1 h2
    unfold upgradeMarker
    cases hg : d.getProp "type" <;> simp only []
    rename_i tag
    rw [hg] at h1 h2
    have t1 : tag ≠ "GCMinor" := fun e => h1 (by rw [e])
    have t2 : tag ≠ "GCMajor" := fun e => h2 (by rw [e])
    simp [t1, t2]

/-- What the body of the marker loop of upgrader 9 does to one row. -/
theorem convertNineRow_spec (cm : ConvertMarkers) (dataIndex : Option Nat) (row : List JVal) :
    (convertNineRow cm dataIndex row).length = row.length ∧
    (∀ j, dataIndex ≠ some j → (convertNineRow cm dataIndex row)[j]? = row[j]?) ∧
    ((rowGet row dataIndex).getProp "type" = JVal.str "GCMinor" →
      rowGet (convertNineRow cm dataIndex row) dataIndex =
        cm.upgradeGCMinorMarker (rowGet row dataIndex)) ∧
    ((rowGet row dataIndex).getProp "type" = JVal.str "GCMajor" →
      rowGet (convertNineRow cm dataIndex row) dataIndex =
        cm.upgradeGCMajorMarker_Gecko8To9 (rowGet row dataIndex)) ∧
    ((rowGet row dataIndex).getProp "type" ≠ JVal.str "GCMinor" →
      (rowGet row dataIndex).getProp "type" ≠ JVal.str "GCMajor" →
      convertNineRow cm dataIndex row = row) ∧
    ((rowGet row dataIndex).truthy = false → convertNineRow cm dataIndex row = row) := by
  obtain ⟨hminor, hmajor, hother⟩ := upgradeMarker_spec cm (rowGet row dataIndex)
  by_cases ht : (rowGet row dataIndex).truthy = true
  · cases dataIndex with
    | none => simp [rowGet, JVal.truthy] at ht
    | some i =>
      have hi : i < row.length := by
        by_contra hge
        have hge : row.length ≤ i := Nat.le_of_not_lt hge
        simp [rowGet, List.getD_eq_getElem?_getD, List.getElem?_eq_none hge, JVal.truthy] at ht
      have hget : ∀ v, rowGet (rowSet row (some i) v) (some i) = v := by
        intro v
        simp [rowGet, rowSet, List.getD_eq_getElem?_getD, hi]
      have hself : rowSet row (some i) (rowGet row (some i)) = row := by
        simp only [rowSet, rowGet, List.getD_eq_getElem?_getD]
        apply List.ext_getElem?
        intro j
        by_cases hj : i = j
        · subst hj
          simp [hi]
        · simp [List.getElem?_set_ne hj]
      simp only [convertNineRow, ht, if_true]
      refine ⟨by simp [rowSet], ?_, ?_, ?_, ?_, ?_⟩
      · intro j hj
        have hij : i ≠ j := fun e => hj (by rw [e])
        simp [rowSet, List.getElem?_set_ne hij]
      · intro h
        rw [hget, hminor h]
      · intro h
        rw [hget, hmajor h]
      · intro h1 h2
        rw [hother h1 h2, hself]
      · intro hf
        cases hf
  · have hf : (rowGet row dataIndex).truthy = false := by simpa using ht
    have hrow : convertNineRow cm dataIndex row = row := by
      simp [convertNineRow, hf]
    have hprop := getProp_of_not_truthy "type" _ hf
    rw [hrow]
    refine ⟨rfl, fun _ _ => rfl, ?_, ?_, fun _ _ => rfl, fun _ => rfl⟩
    · intro h
      rw [hprop] at h
      cases h
    · intro h
      rw [hprop] at h
      cases h

/-- Claim C13. Upgrader 9 dispatches on the type tag of the payload: on every
profile in the version-8 shape it returns, and for every thread of the tree and
every marker row, with `d` the payload cell of the row, the new payload cell is
`upgradeGCMinorMarker(d)` if `d.type` is `"GCMinor"`, it is
`upgradeGCMajorMarker_Gecko8To9(d)` if `d.type` is `"GCMajor"`, and the row is
unchanged for every other type tag and when there is no payload; the cells
other than the payload cell are unchanged, and so is the schema. -/
theorem C13_upgrader9_dispatch (cm : ConvertMarkers) (p : Profile)
    (h : structured p = true) :
    _upgraders cm 9 = some (convertToVersionNineRecursive cm) ∧
      (convertToVersionNineRecursive cm p).thrown = none ∧
      List.Forall₂
        (fun t t1 : Thread =>
          t1.markers.schema = t.markers.schema ∧
            List.Forall₂
              (fun row row1 : List JVal =>
                row1.length = row.length ∧
                (∀ j, t.markers.schema.lookup "data" ≠ some j → row1[j]? = row[j]?) ∧
                ((rowGet row (t.markers.schema.lookup "data")).getProp "type" =
                    JVal.str "GCMinor" →
                  rowGet row1 (t.markers.schema.lookup "data") =
                    cm.upgradeGCMinorMarker (rowGet row (t.markers.schema.lookup "data"))) ∧
                ((rowGet row (t.markers.schema.lookup "data")).getProp "type" =
                    JVal.str "GCMajor" →
                  rowGet row1 (t.markers.schema.lookup "data") =
                    cm.upgradeGCMajorMarker_Gecko8To9
                      (rowGet row (t.markers.schema.lookup "data"))) ∧
                ((rowGet row (t.markers.schema.lookup "data")).getProp "type" ≠
                    JVal.str "GCMinor" →
                  (rowGet row (t.markers.schema.lookup "data")).getProp "type" ≠
                    JVal.str "GCMajor" →
                  row1 = row) ∧
                ((rowGet row (t.markers.schema.lookup "data")).truthy = false → row1 = row))
              t.markers.data t1.markers.data)
        (allThreads p) (allThreads (convertToVersionNineRecursive cm p).state) := by
  obtain ⟨h1, h2⟩ := (convertNine_allThreads cm).1 p h (fun _ _ => rfl)
  refine ⟨rfl, h1, ?_⟩
  rw [h2, List.forall₂_map_right_iff, List.forall₂_same]
  intro t _
  refine ⟨rfl, ?_⟩
  simp only [convertNineThread]
  rw [List.forall₂_map_right_iff, List.forall₂_same]
  intro row _
  exact convertNineRow_spec cm (t.markers.schema.lookup "data") row

/-- Claim C13 applied to the profile `rootV8` with marker upgraders that label
their result. -/
theorem C13_witness :
    structured rootV8 = true ∧
      (convertToVersionNineRecursive labelMarkers rootV8).thrown = none ∧
      (allThreads (convertToVersionNineRecursive labelMarkers rootV8).state).map
          (fun t => t.markers.data.map (fun row => rowGet row (some 2))) =
        [[JVal.str "minor", JVal.str "major", JVal.obj [("type", JVal.str "tracing")],
          JVal.undefined]] :=
  ⟨by decide, (C13_upgrader9_dispatch labelMarkers rootV8 (by decide)).2.1, rfl⟩

/-! ## Upgrader 7 -/

theorem lookup_setProp_self (key : String) (v : JVal) (l : List (String × JVal)) :
    (setProp key v l).lookup key = some v := by
  induction l with
  | nil => simp [setProp, List.lookup]
  | cons kw rest ih =>
    obtain ⟨k, w⟩ := kw
    by_cases hk : k = key
    · simp [setProp, hk, List.lookup]
    · have hne : (key == k) = false := by simpa using fun e : key = k => hk e.symm
      simp [setProp, hk, List.lookup, hne, ih]

theorem lookup_setProp_ne (key other : String) (v : JVal) (l : List (String × JVal))
    (h : other ≠ key) : (setProp key v l).lookup other = l.lookup other := by
  induction l with
  | nil =>
    have hne : (other == key) = false := by simpa using h
    simp [setProp, List.lookup, hne]
  | cons kw rest ih =>
    obtain ⟨k, w⟩ := kw
    by_cases hk : k = key
    · subst hk
      have hne : (other == k) = false := by simpa using h
      simp [setProp, List.lookup, hne]
    · by_cases ho : other = k
      · subst ho
        simp [setProp, hk, List.lookup]
      · have hne : (other == k) = false := by simpa using ho
        simp [setProp, hk, List.lookup, hne, ih]

/-- The two assignments of upgrader 7, read back. -/
theorem renameEventType_spec (d d1 : JVal) (h : renameEventType d = some d1) :
    d1.getProp "eventType" = d.getProp "type" ∧ d1.getProp "type" = JVal.str "DOMEvent" ∧
      d ≠ JVal.undefined := by
  cases d with
  | obj fields =>
    simp only [renameEventType, Option.some.injEq] at h
    subst h
    refine ⟨?_, ?_, by simp⟩
    · simp only [JVal.getProp]
      rw [lookup_setProp_ne "type" "eventType" _ _ (by decide), lookup_setProp_self]
      rfl
    · simp only [JVal.getProp]
      rw [lookup_setProp_self]
      rfl
  | arr items props =>
    simp only [renameEventType, Option.some.injEq] at h
    subst h
    refine ⟨?_, ?_, by simp⟩
    · simp only [JVal.getProp]
      rw [lookup_setProp_ne "type" "eventType" _ _ (by decide), lookup_setProp_self]
      rfl
    · simp only [JVal.getProp]
      rw [lookup_setProp_self]
      rfl
  | undefined => simp [renameEventType] at h
  | null => simp [renameEventType] at h
  | bool b => simp [renameEventType] at h
  | num n => simp [renameEventType] at h
  | str t => simp [renameEventType] at h

theorem renameEventType_isSome (d : JVal) (h : d.isObject = true) :
    ∃ d1, renameEventType d = some d1 := by
  cases d <;> simp [JVal.isObject] at h <;> exact ⟨_, rfl⟩

/-- Writing a cell that exists and reading it back. -/
theorem rowGet_rowSet (row : List JVal) (index : Option Nat) (v : JVal)
    (h : rowGet row index ≠ JVal.undefined) : rowGet (rowSet row index v) index = v := by
  cases index with
  | none => exact absurd rfl h
  | some i =>
    have hi : i < row.length := by
      by_contra hge
      have hge : row.length ≤ i := Nat.le_of_not_lt hge
      exact h (by simp [rowGet, List.getD_eq_getElem?_getD, List.getElem?_eq_none hge])
    simp [rowGet, rowSet, List.getD_eq_getElem?_getD, hi]

theorem rowSet_other (row : List JVal) (index : Option Nat) (v : JVal) (j : Nat)
    (h : index ≠ some j) : (rowSet row index v)[j]? = row[j]? := by
  cases index with
  | none => rfl
  | some i =>
    have hij : i ≠ j := fun e => h (by rw [e])
    simp [rowSet, List.getElem?_set_ne hij]

theorem rowSet_length (row : List JVal) (index : Option Nat) (v : JVal) :
    (rowSet row index v).length = row.length := by
  cases index <;> simp [rowSet]

/-- The marker loop of upgrader 7 on rows that are as it expects them. -/
theorem convertSevenRows_spec (stringTable : List String) (nameIndex dataIndex : Option Nat)
    (rows : List (List JVal))
    (hwf : ∀ row ∈ rows, markerRowWellFormed stringTable nameIndex dataIndex row = true) :
    (convertSevenRows stringTable nameIndex dataIndex rows).thrown = none ∧
      List.Forall₂
        (fun row row1 : List JVal =>
          ∀ name, getString stringTable (rowGet row nameIndex) = Except.ok name →
            (name = "DOMEvent" →
              ∃ d1, renameEventType (rowGet row dataIndex) = some d1 ∧
                row1 = rowSet row dataIndex d1) ∧
            (name ≠ "DOMEvent" → row1 = row))
        rows (convertSevenRows stringTable nameIndex dataIndex rows).state := by
  induction rows with
  | nil => simp [convertSevenRows]
  | cons row rest ih =>
    obtain ⟨ih1, ih2⟩ := ih (fun r hr => hwf r (List.mem_cons_of_mem _ hr))
    have hrow := hwf row (List.mem_cons_self _ _)
    unfold markerRowWellFormed at hrow
    cases hg : getString stringTable (rowGet row nameIndex) with
    | error e => rw [hg] at hrow; simp at hrow
    | ok name =>
      rw [hg] at hrow
      by_cases hn : name = "DOMEvent"
      · have hobj : (rowGet row dataIndex).isObject = true := by
          simpa [hn] using hrow
        obtain ⟨d1, hd1⟩ := renameEventType_isSome _ hobj
        simp only [convertSevenRows, hg, hn, if_true, hd1]
        refine ⟨ih1, List.Forall₂.cons ?_ ih2⟩
        intro name1 hname1
        rw [hg] at hname1
        cases hname1
        exact ⟨fun _ => ⟨d1, hd1, rfl⟩, fun hne => absurd hn hne⟩
      · simp only [convertSevenRows, hg, hn, if_false]
        refine ⟨ih1, List.Forall₂.cons ?_ ih2⟩
        intro name1 hname1
        rw [hg] at hname1
        cases hname1
        exact ⟨fun he => absurd he hn, fun _ => rfl⟩

/-- Claim C11. Upgrader 7 renames the payload field of `DOMEvent` markers: on
every profile in the version-6 shape whose marker rows are well formed it
returns, and for every thread of the tree and every marker row whose name cell
resolves through the string table of the thread to `"DOMEvent"`, the new
payload has `eventType` equal to the former `type` and `type` equal to
`"DOMEvent"`, the other cells of the row being unchanged; every marker row
whose name resolves to another string is unchanged.  The payload
`{type: "click"}` becomes `{type: "DOMEvent", eventType: "click"}`. -/
theorem C11_upgrader7_renames_type (cm : ConvertMarkers) (p : Profile)
    (h : structured p = true) (hwf : ∀ t ∈ allThreads p, markersWellFormed t = true) :
    _upgraders cm 7 = some convertToVersionSevenRecursive ∧
      (convertToVersionSevenRecursive p).thrown = none ∧
      List.Forall₂
        (fun t t1 : Thread =>
          List.Forall₂
            (fun row row1 : List JVal =>
              ∀ name,
                getString t.stringTable (rowGet row (t.markers.schema.lookup "name")) =
                  Except.ok name →
                (name = "DOMEvent" →
                  (rowGet row1 (t.markers.schema.lookup "data")).getProp "eventType" =
                      (rowGet row (t.markers.schema.lookup "data")).getProp "type" ∧
                    (rowGet row1 (t.markers.schema.lookup "data")).getProp "type" =
                      JVal.str "DOMEvent" ∧
                    row1.length = row.length ∧
                    ∀ j, t.markers.schema.lookup "data" ≠ some j → row1[j]? = row[j]?) ∧
                (name ≠ "DOMEvent" → row1 = row))
            t.markers.data t1.markers.data)
        (allThreads p) (allThreads (convertToVersionSevenRecursive p).state) ∧
      renameEventType (JVal.obj [("type", JVal.str "click")]) =
        some (JVal.obj [("type", JVal.str "DOMEvent"), ("eventType", JVal.str "click")]) := by
  have hrows : ∀ t ∈ allThreads p,
      (convertSevenRows t.stringTable (t.markers.schema.lookup "name")
          (t.markers.schema.lookup "data") t.markers.data).thrown = none ∧
        List.Forall₂
          (fun row row1 : List JVal =>
            ∀ name,
              getString t.stringTable (rowGet row (t.markers.schema.lookup "name")) =
                Except.ok name →
              (name = "DOMEvent" →
                ∃ d1, renameEventType (rowGet row (t.markers.schema.lookup "data")) = some d1 ∧
                  row1 = rowSet row (t.markers.schema.lookup "data") d1) ∧
              (name ≠ "DOMEvent" → row1 = row))
          t.markers.data
          (convertSevenRows t.stringTable (t.markers.schema.lookup "name")
            (t.markers.schema.lookup "data") t.markers.data).state := by
    intro t ht
    apply convertSevenRows_spec
    intro row hrow
    exact List.all_eq_true.mp (hwf t ht) row hrow
  obtain ⟨h1, h2⟩ := convertSeven_allThreads.1 p h (fun t ht => (hrows t ht).1)
  refine ⟨rfl, h1, ?_, rfl⟩
  rw [h2, List.forall₂_map_right_iff, List.forall₂_same]
  intro t ht
  simp only [convertSevenThread]
  refine List.Forall₂.imp ?_ (hrows t ht).2
  intro row row1 hrel name hname
  obtain ⟨hdom, hother⟩ := hrel name hname
  refine ⟨?_, hother⟩
  intro hn
  obtain ⟨d1, hd1, hrow1⟩ := hdom hn
  obtain ⟨he, ht1, hdef⟩ := renameEventType_spec _ _ hd1
  subst hrow1
  rw [rowGet_rowSet _ _ _ hdef]
  exact ⟨he, ht1, rowSet_length _ _ _, fun j hj => rowSet_other _ _ _ j hj⟩

/-- Claim C11 applied to the profile `rootV6`. -/
theorem C11_witness :
    structured rootV6 = true ∧ (∀ t ∈ allThreads rootV6, markersWellFormed t = true) ∧
      (convertToVersionSevenRecursive rootV6).thrown = none ∧
      (allThreads (convertToVersionSevenRecursive rootV6).state).map
          (fun t => t.markers.data.map (fun row => rowGet row (some 2))) =
        [[JVal.obj [("type", JVal.str "DOMEvent"), ("eventType", JVal.str "click")]]] :=
  ⟨by decide, by decide,
    (C11_upgrader7_renames_type plainMarkers rootV6 (by decide) (by decide)).2.1, rfl⟩

/-! ## Upgrader 4 -/

theorem convertLib_total (abi : Option String) (lib : Lib) (h : libConvertible lib = true) :
    ∃ n, convertLib abi lib = Except.ok n := by
  unfold libConvertible at h
  unfold convertLib
  cases hb : lib.breakpadId with
  | some b => simp
  | none =>
    rw [hb] at h
    simp only [Option.isSome_none, Bool.false_or, Bool.and_eq_true, Option.isSome_iff_exists] at h
    obtain ⟨⟨sig, hsig⟩, ⟨pdb, hpdb⟩⟩ := h
    simp [hsig, hpdb]

theorem mapLibs_total (abi : Option String) (raw : List Lib)
    (h : raw.all libConvertible = true) : ∃ normal, mapLibs abi raw = Except.ok normal := by
  induction raw with
  | nil => exact ⟨[], rfl⟩
  | cons lib rest ih =>
    simp only [List.all_cons, Bool.and_eq_true] at h
    obtain ⟨n, hn⟩ := convertLib_total abi lib h.1
    obtain ⟨ns, hns⟩ := ih h.2
    exact ⟨n :: ns, by simp [mapLibs, hn, hns]⟩

theorem mapLibs_forall₂ (abi : Option String) :
    ∀ (raw normal : List Lib), mapLibs abi raw = Except.ok normal →
      List.Forall₂ (fun a b => convertLib abi a = Except.ok b) raw normal := by
  intro raw
  induction raw with
  | nil =>
    intro normal h
    simp only [mapLibs] at h
    cases h
    exact List.Forall₂.nil
  | cons lib rest ih =>
    intro normal h
    simp only [mapLibs] at h
    cases hn : convertLib abi lib with
    | error e => rw [hn] at h; cases h
    | ok n =>
      rw [hn] at h
      cases hns : mapLibs abi rest with
      | error e => rw [hns] at h; cases h
      | ok ns =>
        rw [hns] at h
        cases h
        exact List.Forall₂.cons hn (ih ns hns)

theorem convertLibs_ok (abi : Option String) (l : LibsField) (libs : List Lib)
    (h : convertLibs abi l = Except.ok libs) :
    ∃ raw normal, l = LibsField.encoded raw ∧ mapLibs abi raw = Except.ok normal ∧
      libs = sortByStart normal := by
  cases l with
  | decoded ls => simp [convertLibs] at h
  | encoded raw =>
    simp only [convertLibs] at h
    cases hm : mapLibs abi raw with
    | error e => rw [hm] at h; cases h
    | ok normal =>
      rw [hm] at h
      cases h
      exact ⟨raw, normal, rfl, hm, rfl⟩

theorem convertLibs_total (abi : Option String) (l : LibsField)
    (h : libsConvertible l = true) : ∃ libs, convertLibs abi l = Except.ok libs := by
  cases l with
  | decoded ls => simp [libsConvertible] at h
  | encoded raw =>
    obtain ⟨normal, hn⟩ := mapLibs_total abi raw h
    exact ⟨sortByStart normal, by simp [convertLibs, hn]⟩

/-- Upgrader 4 returns on a profile in the version-3 shape. -/
theorem convertFour_returns :
    (∀ p : Profile, versionThreeShape p = true →
      (convertToVersionFourRecursive p).thrown = none) ∧
    (∀ ts : List ThreadEntry, versionThreeEntries ts = true →
      (convertFourThreads ts).thrown = none) := by
  apply threads_induction
  · intro m l ts ps pr ih hs
    simp only [versionThreeShape, Bool.and_eq_true] at hs
    obtain ⟨libs, hlibs⟩ := convertLibs_total m.abi l hs.1
    simp [convertToVersionFourRecursive, hlibs, ih hs.2]
  · intro _
    rfl
  · intro t rest ih hs
    simp only [versionThreeEntries] at hs
    simpa [convertFourThreads] using ih hs
  · intro q rest ihq ih hs
    simp only [versionThreeEntries, Bool.and_eq_true] at hs
    simp [convertFourThreads, ihq hs.1, ih hs.2]

/-- When upgrader 4 returns, the root and every embedded subprocess profile, in
order, have been converted. -/
theorem convertFour_embedded :
    (∀ p : Profile, (convertToVersionFourRecursive p).thrown = none →
      List.Forall₂ convertedByFour (p :: embedded p)
        ((convertToVersionFourRecursive p).state ::
          embedded (convertToVersionFourRecursive p).state)) ∧
    (∀ ts : List ThreadEntry, (convertFourThreads ts).thrown = none →
      List.Forall₂ convertedByFour (embeddedOfEntries ts)
          (embeddedOfEntries (convertFourThreads ts).state) ∧
        threadRecords (convertFourThreads ts).state =
          (threadRecords ts).map normalizeThread) := by
  apply threads_induction
  · intro m l ts ps pr ih hok
    simp only [convertToVersionFourRecursive] at hok ⊢
    cases hl : convertLibs m.abi l with
    | error e => simp [hl] at hok
    | ok libs =>
      simp only [hl] at hok ⊢
      cases hth : (convertFourThreads ts).thrown with
      | some e => simp [hth] at hok
      | none =>
        simp only [hth]
        obtain ⟨ih1, ih2⟩ := ih hth
        obtain ⟨raw, normal, hraw, hnormal, hsorted⟩ := convertLibs_ok m.abi l libs hl
        simp only [embedded]
        refine List.Forall₂.cons ⟨⟨raw, normal, ?_, ?_, ?_⟩, ?_⟩ ih1
        · rw [libs_mk, hraw]
        · rw [meta_mk]; exact hnormal
        · rw [libs_mk, hsorted]
        · rw [threads_mk, threads_mk]; exact ih2
  · intro _
    exact ⟨List.Forall₂.nil, rfl⟩
  · intro t rest ih hok
    simp only [convertFourThreads] at hok ⊢
    obtain ⟨ih1, ih2⟩ := ih hok
    simp only [embeddedOfEntries, threadRecords, List.map_cons]
    exact ⟨ih1, by rw [ih2]⟩
  · intro q rest ihq ih hok
    simp only [convertFourThreads] at hok ⊢
    cases hq : (convertToVersionFourRecursive q).thrown with
    | some e => simp [hq] at hok
    | none =>
      simp only [hq] at hok ⊢
      obtain ⟨ih1, ih2⟩ := ih hok
      have hsub := ihq hq
      simp only [embeddedOfEntries, threadRecords]
      refine ⟨?_, ih2⟩
      cases hsub with
      | cons hhead htail =>
        exact List.Forall₂.cons hhead (List.rel_append htail ih1)

theorem sortByStart_sorted (libs : List Lib) :
    List.Sorted (fun a b : Lib => a.start ≤ b.start) (sortByStart libs) := by
  haveI : IsTotal Lib (fun a b : Lib => a.start ≤ b.start) :=
    ⟨fun a b => le_total a.start b.start⟩
  haveI : IsTrans Lib (fun a b : Lib => a.start ≤ b.start) :=
    ⟨fun _ _ _ hab hbc => le_trans hab hbc⟩
  exact List.sorted_insertionSort (fun a b : Lib => a.start ≤ b.start) libs

theorem sortByStart_perm (libs : List Lib) : (sortByStart libs).Perm libs :=
  List.perm_insertionSort (fun a b : Lib => a.start ≤ b.start) libs

/-- Claim C14. Upgrader 4 sorts `libs`: on every profile in the version-3 shape
it returns, and for the profile and every embedded subprocess profile it
converts, whose `libs` decodes to a list `raw`, the new `libs` is a decoded
list sorted ascending by start address and a permutation of the entry by entry
normalisation of `raw`; it has the length of `raw`. -/
theorem C14_upgrader4_sorts_libs (cm : ConvertMarkers) (p : Profile)
    (h : versionThreeShape p = true) :
    _upgraders cm 4 = some convertToVersionFourRecursive ∧
      (convertToVersionFourRecursive p).thrown = none ∧
      List.Forall₂
        (fun q q1 : Profile =>
          ∃ raw normal sorted, q.libs = LibsField.encoded raw ∧
            List.Forall₂ (fun a b => convertLib q.meta.abi a = Except.ok b) raw normal ∧
            q1.libs = LibsField.decoded sorted ∧
            List.Sorted (fun a b : Lib => a.start ≤ b.start) sorted ∧
            sorted.Perm normal ∧ sorted.length = raw.length)
        (p :: embedded p)
        ((convertToVersionFourRecursive p).state ::
          embedded (convertToVersionFourRecursive p).state) := by
  have hok := convertFour_returns.1 p h
  refine ⟨rfl, hok, ?_⟩
  refine List.Forall₂.imp ?_ (convertFour_embedded.1 p hok)
  intro q q1 hrel
  obtain ⟨⟨raw, normal, hraw, hnormal, hlibs⟩, _⟩ := hrel
  have hf := mapLibs_forall₂ q.meta.abi raw normal hnormal
  refine ⟨raw, normal, sortByStart normal, hraw, hf, hlibs, sortByStart_sorted normal,
    sortByStart_perm normal, ?_⟩
  rw [(sortByStart_perm normal).length_eq, hf.length_eq]

/-- Claim C14 applied to the profile `rootV3`, which embeds one subprocess
profile. -/
theorem C14_witness :
    versionThreeShape rootV3 = true ∧
      (convertToVersionFourRecursive rootV3).thrown = none ∧
      ((convertToVersionFourRecursive rootV3).state ::
          embedded (convertToVersionFourRecursive rootV3).state).map
        (fun q => q.libs.isEncoded) = [false, false] :=
  ⟨by decide, (C14_upgrader4_sorts_libs plainMarkers rootV3 (by decide)).2.1, by decide⟩

theorem normalizeThread_spec (t : Thread) :
    (t.processType = none → t.name = "Content" →
      (normalizeThread t).processType = some "tab" ∧ (normalizeThread t).name = "GeckoMain") ∧
    (t.processType = none → t.name = "Plugin" →
      (normalizeThread t).processType = some "plugin" ∧ (normalizeThread t).name = t.name) ∧
    (t.processType = none → t.name ≠ "Content" → t.name ≠ "Plugin" →
      (normalizeThread t).processType = some "default" ∧ (normalizeThread t).name = t.name) ∧
    (t.processType ≠ none → normalizeThread t = t) := by
  refine ⟨?_, ?_, ?_, ?_⟩
  · intro hp hn
    simp [normalizeThread, hp, hn]
  · intro hp hn
    simp [normalizeThread, hp, hn]
  · intro hp h1 h2
    simp [normalizeThread, hp, h1, h2]
  · intro hp
    have hsome : t.processType.isSome = true := by
      cases hpt : t.processType with
      | none => exact absurd hpt hp
      | some x => rfl
    simp [normalizeThread, hsome]

/-- Claim C15. Upgrader 4 normalises legacy threads: on every profile in the
version-3 shape it returns, and for every entry of `threads` that is not a
string, in the profile and in every embedded subprocess profile it converts: if
the entry has no `processType` it gets `processType` `"tab"` and `name`
`"GeckoMain"` if its name was `"Content"`, `processType` `"plugin"` with the
name unchanged if its name was `"Plugin"`, and `processType` `"default"` with
the name unchanged otherwise; a thread that has a `processType` is
unchanged. -/
theorem C15_upgrader4_normalises_threads (cm : ConvertMarkers) (p : Profile)
    (h : versionThreeShape p = true) :
    _upgraders cm 4 = some convertToVersionFourRecursive ∧
      (convertToVersionFourRecursive p).thrown = none ∧
      List.Forall₂
        (fun q q1 : Profile =>
          List.Forall₂
            (fun t t1 : Thread =>
              (t.processType = none → t.name = "Content" →
                t1.processType = some "tab" ∧ t1.name = "GeckoMain") ∧
              (t.processType = none → t.name = "Plugin" →
                t1.processType = some "plugin" ∧ t1.name = t.name) ∧
              (t.processType = none → t.name ≠ "Content" → t.name ≠ "Plugin" →
                t1.processType = some "default" ∧ t1.name = t.name) ∧
              (t.processType ≠ none → t1 = t))
            (threadRecords q.threads) (threadRecords q1.threads))
        (p :: embedded p)
        ((convertToVersionFourRecursive p).state ::
          embedded (convertToVersionFourRecursive p).state) := by
  have hok := convertFour_returns.1 p h
  refine ⟨rfl, hok, ?_⟩
  refine List.Forall₂.imp ?_ (convertFour_embedded.1 p hok)
  intro q q1 hrel
  rw [hrel.2, List.forall₂_map_right_iff, List.forall₂_same]
  intro t _
  exact normalizeThread_spec t

/-- Claim C15 applied to the profile `rootV3`, whose thread and whose embedded
profile's thread are named `Content` and have no `processType`. -/
theorem C15_witness :
    versionThreeShape rootV3 = true ∧
      (convertToVersionFourRecursive rootV3).thrown = none ∧
      (rootV3 :: embedded rootV3).map (fun q => threadLabels q.threads) =
        [[("Content", none)], [("Content", none)]] ∧
      ((convertToVersionFourRecursive rootV3).state ::
          embedded (convertToVersionFourRecursive rootV3).state).map
        (fun q => threadLabels q.threads) =
        [[("GeckoMain", some "tab")], [("GeckoMain", some "tab")]] :=
  ⟨by decide, (C15_upgrader4_normalises_threads plainMarkers rootV3 (by decide)).2.1,
    by decide, by decide⟩

/-! ## The normalisation of one library descriptor -/

theorem lastIndexOf_fold (c : Char) :
    ∀ (l : List Char) (n : Nat) (acc : Int),
      (c ∉ l →
        (l.enumFrom n).foldl (fun a ic => if ic.2 = c then (ic.1 : Int) else a) acc = acc) ∧
      (c ∈ l → ∃ pre post, l = pre ++ c :: post ∧ c ∉ post ∧
        (l.enumFrom n).foldl (fun a ic => if ic.2 = c then (ic.1 : Int) else a) acc =
          ((n + pre.length : Nat) : Int)) := by
  intro l
  induction l with
  | nil =>
    intro n acc
    simp
  | cons x xs ih =>
    intro n acc
    obtain ⟨ih1, ih2⟩ := ih (n + 1) (if x = c then (n : Int) else acc)
    simp only [List.enumFrom_cons, List.foldl_cons]
    constructor
    · intro hnot
      have hx : ¬ x = c := fun e => hnot (by simp [e])
      have hxs : c ∉ xs := fun hm => hnot (List.mem_cons_of_mem _ hm)
      rw [ih1 hxs]
      simp [hx]
    · intro hmem
      by_cases hxs : c ∈ xs
      · obtain ⟨pre, post, hl, hpost, hfold⟩ := ih2 hxs
        refine ⟨x :: pre, post, by simp [hl], hpost, ?_⟩
        rw [hfold]
        simp only [List.length_cons]
        congr 1
        omega
      · have hx : x = c := by
          rcases List.mem_cons.mp hmem with e | e
          · exact e.symm
          · exact absurd e hxs
        refine ⟨[], xs, by simp [hx], hxs, ?_⟩
        rw [ih1 hxs]
        simp [hx]

theorem lastIndexOf_spec (s : String) (c : Char) :
    (c ∉ s.data → lastIndexOf s c = -1) ∧
    (c ∈ s.data → ∃ pre post, s.data = pre ++ c :: post ∧ c ∉ post ∧
      lastIndexOf s c = (pre.length : Int)) := by
  obtain ⟨h1, h2⟩ := lastIndexOf_fold c s.data 0 (-1)
  unfold lastIndexOf List.enum
  refine ⟨h1, ?_⟩
  intro hmem
  obtain ⟨pre, post, hl, hpost, hfold⟩ := h2 hmem
  exact ⟨pre, post, hl, hpost, by rw [hfold]; simp⟩

/-- The expression `name.substr(name.lastIndexOf('/') + 1)` is the part of
`name` after its last `/`, the whole of it when there is none. -/
theorem afterLastSlash_spec (name : String) :
    ('/' ∉ name.data ∧ substrFrom name (lastIndexOf name '/' + 1) = name) ∨
      ∃ pre, name.data = pre ++ '/' :: (substrFrom name (lastIndexOf name '/' + 1)).data ∧
        '/' ∉ (substrFrom name (lastIndexOf name '/' + 1)).data := by
  obtain ⟨h1, h2⟩ := lastIndexOf_spec name '/'
  by_cases hmem : '/' ∈ name.data
  · right
    obtain ⟨pre, post, hl, hpost, hidx⟩ := h2 hmem
    have hdrop : (substrFrom name (lastIndexOf name '/' + 1)).data = post := by
      unfold substrFrom
      rw [hidx, hl]
      have hnat : ((pre.length : Int) + 1).toNat = pre.length + 1 := by omega
      rw [hnat]
      simp
    exact ⟨pre, by rw [hdrop]; exact hl, by rw [hdrop]; exact hpost⟩
  · left
    refine ⟨hmem, ?_⟩
    unfold substrFrom
    rw [h1 hmem]
    simp

/-- The conditional that strips a trailing `.pdb`. -/
theorem stripPdb_spec (debugName : String) :
    (∃ stem, debugName.data = stem ++ ".pdb".data ∧
        (if endsWith debugName ".pdb" then substrTo debugName (debugName.length - 4)
          else debugName) = String.mk stem) ∨
      (¬ ".pdb".data <:+ debugName.data ∧
        (if endsWith debugName ".pdb" then substrTo debugName (debugName.length - 4)
          else debugName) = debugName) := by
  by_cases hsuf : ".pdb".data <:+ debugName.data
  · left
    obtain ⟨stem, hstem⟩ := hsuf
    have hends : endsWith debugName ".pdb" = true := by
      unfold endsWith
      rw [List.isSuffixOf_iff_suffix]
      exact ⟨stem, hstem⟩
    refine ⟨stem, hstem.symm, ?_⟩
    rw [if_pos hends]
    unfold substrTo
    have hlen : debugName.length = stem.length + 4 := by
      show debugName.data.length = _
      rw [← hstem]
      simp
    rw [hlen, ← hstem]
    simp
  · right
    have hends : endsWith debugName ".pdb" = false := by
      unfold endsWith
      rw [Bool.eq_false_iff]
      intro h
      exact hsuf (List.isSuffixOf_iff_suffix.mp h)
    exact ⟨hsuf, by rw [hends]; simp⟩

theorem cleanSignature_spec (signature : String) :
    toUpperCase (removeBracesAndDashes signature) =
      String.mk
        ((signature.data.filter
          (fun c => !decide (c ∈ [Char.ofNat 123, Char.ofNat 125, '-']))).map Char.toUpper) := by
  unfold toUpperCase removeBracesAndDashes
  congr 2
  apply List.filter_congr
  intro c _
  by_cases h1 : c = Char.ofNat 123 <;> by_cases h2 : c = Char.ofNat 125 <;>
    by_cases h3 : c = '-' <;> simp [h1, h2, h3]

/-- The callback of upgrader 4 gives a descriptor the shape of the
specification. -/
theorem convertLib_normalised (abi : Option String) (lib n : Lib)
    (h : convertLib abi lib = Except.ok n) : libNormalised abi lib n := by
  have harch1 : abi = some "x86_64-gcc3" → _archFromAbi abi = some "x86_64" := by
    intro ha
    simp [_archFromAbi, ha]
  have harch2 : abi ≠ some "x86_64-gcc3" → _archFromAbi abi = abi := by
    intro ha
    simp [_archFromAbi, ha]
  unfold convertLib at h
  cases hb : lib.breakpadId with
  | some b =>
    simp only [hb, Option.isSome_some, if_true] at h
    cases h
    refine ⟨fun _ => ⟨hb.symm, _, rfl, afterLastSlash_spec lib.name⟩, ?_, rfl,
      ⟨_, rfl, stripPdb_spec _⟩, harch1, harch2, rfl, rfl, rfl, rfl, rfl⟩
    intro hnone
    rw [hb] at hnone
    cases hnone
  | none =>
    simp only [hb, Option.isSome_none] at h
    cases hsig : lib.pdbSignature with
    | none =>
      rw [hsig] at h
      simp at h
    | some signature =>
      rw [hsig] at h
      cases hpdb : lib.pdbName with
      | none =>
        rw [hpdb] at h
        simp at h
      | some debugName =>
        rw [hpdb] at h
        simp only [Bool.false_eq_true, if_false] at h
        cases h
        refine ⟨fun hsome => by simp [hb] at hsome, ?_, rfl, ⟨_, rfl, stripPdb_spec _⟩,
          harch1, harch2, rfl, rfl, rfl, rfl, rfl⟩
        intro _
        exact ⟨hpdb.symm, signature, hsig, by rw [← cleanSignature_spec]⟩

theorem forall₂_exists_of_mem_right {α β : Type} {R : α → β → Prop} :
    ∀ {l1 : List α} {l2 : List β}, List.Forall₂ R l1 l2 → ∀ b ∈ l2, ∃ a ∈ l1, R a b := by
  intro l1 l2 h
  induction h with
  | nil =>
    intro b hb
    cases hb
  | cons hab _ ih =>
    intro b hb
    rcases List.mem_cons.mp hb with e | e
    · subst e
      exact ⟨_, List.mem_cons_self _ _, hab⟩
    · obtain ⟨a, ha, hr⟩ := ih b e
      exact ⟨a, List.mem_cons_of_mem _ ha, hr⟩

/-- Claim C16. Upgrader 4 normalises every entry of `libs` into one shape: on
every profile in the version-3 shape it returns, and in the profile and in
every embedded subprocess profile it converts every entry of the new `libs`
comes from an entry of the old one as follows.  If the entry has `breakpadId`,
`debugName` is the part of the original `name` after its last `/`, the whole
name if there is none, and `breakpadId` is unchanged; otherwise `debugName` is
`pdbName` and `breakpadId` is `pdbSignature` with every brace and dash removed,
in upper case, followed by `pdbAge`.  In both cases `path` is the original
`name`, `name` is `debugName` without a trailing `.pdb`, `arch` is `x86_64`
when `meta.abi` is `x86_64-gcc3` and `meta.abi` otherwise, `debugPath` is the
empty string, and `pdbName`, `pdbAge` and `pdbSignature` are absent. -/
theorem C16_upgrader4_normalises_libs (cm : ConvertMarkers) (p : Profile)
    (h : versionThreeShape p = true) :
    _upgraders cm 4 = some convertToVersionFourRecursive ∧
      (convertToVersionFourRecursive p).thrown = none ∧
      List.Forall₂
        (fun q q1 : Profile =>
          ∃ raw sorted, q.libs = LibsField.encoded raw ∧ q1.libs = LibsField.decoded sorted ∧
            sorted.length = raw.length ∧
            ∀ n ∈ sorted, ∃ lib ∈ raw, libNormalised q.meta.abi lib n)
        (p :: embedded p)
        ((convertToVersionFourRecursive p).state ::
          embedded (convertToVersionFourRecursive p).state) := by
  have hok := convertFour_returns.1 p h
  refine ⟨rfl, hok, ?_⟩
  refine List.Forall₂.imp ?_ (convertFour_embedded.1 p hok)
  intro q q1 hrel
  obtain ⟨⟨raw, normal, hraw, hnormal, hlibs⟩, _⟩ := hrel
  have hf := mapLibs_forall₂ q.meta.abi raw normal hnormal
  refine ⟨raw, sortByStart normal, hraw, hlibs, ?_, ?_⟩
  · rw [(sortByStart_perm normal).length_eq, hf.length_eq]
  · intro n hn
    have hn1 : n ∈ normal := (sortByStart_perm normal).mem_iff.mp hn
    obtain ⟨lib, hlib, hconv⟩ := forall₂_exists_of_mem_right hf n hn1
    exact ⟨lib, hlib, convertLib_normalised q.meta.abi lib n hconv⟩

/-- Claim C16 applied to the profile `rootV3`; the two schemes evaluated on
`sampleLib` and `pdbLib`. -/
theorem C16_witness :
    versionThreeShape rootV3 = true ∧
      (convertToVersionFourRecursive rootV3).thrown = none ∧
      (convertLib (some "x86_64-gcc3") sampleLib).toOption.map
          (fun n => (n.debugName, n.breakpadId, n.path, n.name, n.arch, n.debugPath)) =
        some (some "libxul.so", some "ABCDEF0", some "/usr/lib/libxul.so", "libxul.so",
          some "x86_64", some "") ∧
      (convertLib (some "x86") pdbLib).toOption.map
          (fun n => (n.debugName, n.breakpadId, n.path, n.name, n.arch, n.debugPath)) =
        some (some "xul.pdb", some "1A2B3C4D2", some "C:\\firefox\\xul.dll", "xul",
          some "x86", some "") :=
  ⟨by decide, (C16_upgrader4_normalises_libs plainMarkers rootV3 (by decide)).2.1, rfl, rfl⟩

/-! ## The root's `libs` and thread labels under upgraders 5 to 9 -/

theorem forEachThread_labels (body : Thread → Res Thread)
    (hbody : ∀ t, (body t).state.name = t.name ∧ (body t).state.processType = t.processType)
    (ts : List ThreadEntry) :
    threadLabels (forEachThread body ts).state = threadLabels ts := by
  induction ts with
  | nil => rfl
  | cons e rest ih =>
    cases e with
    | encoded q => rfl
    | thread t =>
      simp only [forEachThread]
      unfold threadLabels at ih ⊢
      split
      · simp [threadRecords, (hbody t).1, (hbody t).2]
      · simp [threadRecords, (hbody t).1, (hbody t).2, ih]

theorem threadRecords_filter (ts : List ThreadEntry) :
    threadRecords (ts.filter (fun e => !e.isString)) = threadRecords ts := by
  induction ts with
  | nil => rfl
  | cons e rest ih =>
    cases e with
    | thread t =>
      have h1 : (ThreadEntry.thread t).isString = false := rfl
      simp only [List.filter_cons, h1, Bool.not_false, if_true, threadRecords, ih]
    | encoded q =>
      have h1 : (ThreadEntry.encoded q).isString = true := rfl
      simp only [List.filter_cons, h1, Bool.not_true, threadRecords]
      simp only [Bool.false_eq_true, if_false]
      exact ih

theorem convertFive_root (p : Profile) :
    (convertToVersionFiveRecursive p).libs = p.libs ∧
      threadLabels (convertToVersionFiveRecursive p).threads = threadLabels p.threads := by
  cases p with
  | mk m l ts ps pr =>
    simp only [convertToVersionFiveRecursive, libs_mk, threads_mk, threadData_convertFiveEntries,
      threadLabels, threadRecords_filter, and_self]

theorem convertSix_root (p : Profile) :
    (convertToVersionSixRecursive p).state.libs = p.libs ∧
      threadLabels (convertToVersionSixRecursive p).state.threads =
        threadLabels p.threads := by
  cases p with
  | mk m l ts ps pr =>
    have hl := forEachThread_labels convertSixThread (fun _ => ⟨rfl, rfl⟩) ts
    simp only [convertToVersionSixRecursive]
    split <;> exact ⟨rfl, by rw [threads_mk, threads_mk]; exact hl⟩

theorem convertSeven_root (p : Profile) :
    (convertToVersionSevenRecursive p).state.libs = p.libs ∧
      threadLabels (convertToVersionSevenRecursive p).state.threads =
        threadLabels p.threads := by
  cases p with
  | mk m l ts ps pr =>
    have hl := forEachThread_labels convertSevenThread (fun _ => ⟨rfl, rfl⟩) ts
    simp only [convertToVersionSevenRecursive]
    split <;> exact ⟨rfl, by rw [threads_mk, threads_mk]; exact hl⟩

theorem convertEight_root (p : Profile) :
    (convertToVersionEightRecursive p).state.libs = p.libs ∧
      threadLabels (convertToVersionEightRecursive p).state.threads =
        threadLabels p.threads := by
  cases p with
  | mk m l ts ps pr =>
    have hl := forEachThread_labels convertEightThread (fun _ => ⟨rfl, rfl⟩) ts
    simp only [convertToVersionEightRecursive]
    split <;> exact ⟨rfl, by rw [threads_mk, threads_mk]; exact hl⟩

theorem convertNine_root (cm : ConvertMarkers) (p : Profile) :
    (convertToVersionNineRecursive cm p).state.libs = p.libs ∧
      threadLabels (convertToVersionNineRecursive cm p).state.threads =
        threadLabels p.threads := by
  cases p with
  | mk m l ts ps pr =>
    have hl := forEachThread_labels (convertNineThread cm) (fun _ => ⟨rfl, rfl⟩) ts
    simp only [convertToVersionNineRecursive]
    split <;> exact ⟨rfl, by rw [threads_mk, threads_mk]; exact hl⟩

/-- The upgraders for the targets 5 to 9 keep the root's `libs` and the name
and process type of the root's thread records. -/
theorem upgraders_keep_root (cm : ConvertMarkers) (d : Nat) (u : Profile → Res Profile)
    (h5 : 5 ≤ d) (h9 : d ≤ 9) (hu : _upgraders cm d = some u) (p : Profile) :
    (u p).state.libs = p.libs ∧ threadLabels (u p).state.threads = threadLabels p.threads := by
  interval_cases d <;> simp only [_upgraders, Option.some.injEq] at hu <;> subst hu
  · exact convertFive_root p
  · exact convertSix_root p
  · exact convertSeven_root p
  · exact convertEight_root p
  · exact convertNine_root cm p

theorem composeUpgraders_cons (cm : ConvertMarkers) (d : Nat) (ds : List Nat) (p q : Profile)
    (h : composeUpgraders cm (d :: ds) p = some q) :
    ∃ u, _upgraders cm d = some u ∧ (u p).thrown = none ∧
      composeUpgraders cm ds (u p).state = some q := by
  simp only [composeUpgraders] at h
  cases hu : _upgraders cm d with
  | none => rw [hu] at h; cases h
  | some u =>
    rw [hu] at h
    cases ht : (u p).thrown with
    | some e => simp [ht] at h
    | none =>
      simp only [ht] at h
      exact ⟨u, rfl, ht, h⟩

theorem composeUpgraders_keep_root (cm : ConvertMarkers) :
    ∀ (ds : List Nat) (p q : Profile), (∀ d ∈ ds, 5 ≤ d ∧ d ≤ 9) →
      composeUpgraders cm ds p = some q →
      q.libs = p.libs ∧ threadLabels q.threads = threadLabels p.threads := by
  intro ds
  induction ds with
  | nil =>
    intro p q _ h
    simp only [composeUpgraders, Option.some.injEq] at h
    subst h
    exact ⟨rfl, rfl⟩
  | cons d ds ih =>
    intro p q hds h
    obtain ⟨u, hu, _, hrest⟩ := composeUpgraders_cons cm d ds p q h
    obtain ⟨hd5, hd9⟩ := hds d (List.mem_cons_self _ _)
    obtain ⟨h1, h2⟩ := upgraders_keep_root cm d u hd5 hd9 hu p
    obtain ⟨h3, h4⟩ := ih (u p).state q (fun x hx => hds x (List.mem_cons_of_mem _ hx)) hrest
    exact ⟨h3.trans h1, h4.trans h2⟩

theorem setVersion_root (v : Option Nat) (p : Profile) :
    (p.setVersion v).libs = p.libs ∧ (p.setVersion v).threads = p.threads := by
  cases p
  exact ⟨rfl, rfl⟩

/-! ## The scenario of a profile with `libs` as JSON text -/

/-- Claim C17, amended. For every profile tagged `meta.version = 3` whose
`libs` is JSON text of an array of entries with `name` and `breakpadId`, when
`upgradeGeckoProfileToCurrentVersion` returns the profile's `libs` is a decoded
sequence sorted by start address, of the same length, in which every
`debugName` is the part of the `name` of an original entry after its last `/`,
and every thread that was named `"Content"` and had no `processType` has
`processType` `"tab"` and `name` `"GeckoMain"`. -/
theorem C17_version3_scenario (cm : ConvertMarkers) (p : Profile) (raw : List Lib)
    (hv : p.version = some 3) (hraw : p.libs = LibsField.encoded raw)
    (hbp : ∀ lib ∈ raw, lib.breakpadId.isSome = true)
    (hok : (upgradeGeckoProfileToCurrentVersion cm p).thrown = none) :
    ∃ sorted,
      (upgradeGeckoProfileToCurrentVersion cm p).profile.libs = LibsField.decoded sorted ∧
      List.Sorted (fun a b : Lib => a.start ≤ b.start) sorted ∧
      sorted.length = raw.length ∧
      (∀ n ∈ sorted, ∃ lib ∈ raw, ∃ debugName, n.debugName = some debugName ∧
        (('/' ∉ lib.name.data ∧ debugName = lib.name) ∨
          ∃ pre, lib.name.data = pre ++ '/' :: debugName.data ∧ '/' ∉ debugName.data)) ∧
      List.Forall₂
        (fun (t : Thread) (label : String × Option String) =>
          t.processType = none → t.name = "Content" → label = ("GeckoMain", some "tab"))
        (threadRecords p.threads)
        (threadLabels (upgradeGeckoProfileToCurrentVersion cm p).profile.threads) := by
  obtain ⟨_, _, _, hsucc, _⟩ := upgrade_invocations cm p 3 hv (by decide)
  obtain ⟨_, q, hcomp, hprofile⟩ := hsucc hok
  have hrange : List.range' (3 + 1) (CURRENT_VERSION - 3) = 4 :: [5, 6, 7, 8, 9] := by decide
  rw [hrange] at hcomp
  obtain ⟨u, hu, h4, hrest⟩ := composeUpgraders_cons cm 4 [5, 6, 7, 8, 9] p q hcomp
  simp only [_upgraders, Option.some.injEq] at hu
  subst hu
  have hkeep := composeUpgraders_keep_root cm [5, 6, 7, 8, 9] _ q
    (by intro d hd; simp at hd; omega) hrest
  obtain ⟨hq1, hq2⟩ := hkeep
  have hhead : convertedByFour p (convertToVersionFourRecursive p).state := by
    cases convertFour_embedded.1 p h4 with
    | cons hh _ => exact hh
  obtain ⟨⟨raw1, normal, hraw1, hnormal, hlibs⟩, hthreads⟩ := hhead
  rw [hraw] at hraw1
  cases hraw1
  have hf := mapLibs_forall₂ p.meta.abi raw normal hnormal
  have hl : (upgradeGeckoProfileToCurrentVersion cm p).profile.libs =
      LibsField.decoded (sortByStart normal) := by
    rw [hprofile, (setVersion_root _ q).1, hq1, hlibs]
  have ht : threadLabels (upgradeGeckoProfileToCurrentVersion cm p).profile.threads =
      ((threadRecords p.threads).map normalizeThread).map
        (fun t => (t.name, t.processType)) := by
    rw [hprofile, (setVersion_root _ q).2, hq2]
    unfold threadLabels
    rw [hthreads]
  refine ⟨sortByStart normal, hl, sortByStart_sorted normal, ?_, ?_, ?_⟩
  · rw [(sortByStart_perm normal).length_eq, hf.length_eq]
  · intro n hn
    have hn1 : n ∈ normal := (sortByStart_perm normal).mem_iff.mp hn
    obtain ⟨lib, hlib, hconv⟩ := forall₂_exists_of_mem_right hf n hn1
    obtain ⟨hfirst, _⟩ := convertLib_normalised p.meta.abi lib n hconv
    obtain ⟨_, debugName, hdn, hseg⟩ := hfirst (hbp lib hlib)
    exact ⟨lib, hlib, debugName, hdn, hseg⟩
  · rw [ht, List.map_map, List.forall₂_map_right_iff, List.forall₂_same]
    intro t _ hpt hname
    obtain ⟨hc, _⟩ := normalizeThread_spec t
    obtain ⟨h1, h2⟩ := hc hpt hname
    simp [h1, h2]

/-- Claim C17, amended, applied to the profile `rootV3`. -/
theorem C17_witness :
    rootV3.version = some 3 ∧ rootV3.libs = LibsField.encoded [sampleLib] ∧
      (∀ lib ∈ [sampleLib], lib.breakpadId.isSome = true) ∧
      (upgradeGeckoProfileToCurrentVersion plainMarkers rootV3).thrown = none ∧
      (upgradeGeckoProfileToCurrentVersion plainMarkers rootV3).profile.libs.isEncoded =
        false ∧
      threadLabels (upgradeGeckoProfileToCurrentVersion plainMarkers rootV3).profile.threads =
        [("GeckoMain", some "tab")] ∧
      ∃ sorted,
        (upgradeGeckoProfileToCurrentVersion plainMarkers rootV3).profile.libs =
          LibsField.decoded sorted ∧ sorted.length = 1 :=
  ⟨by decide, rfl, by decide, by decide, by decide, by decide,
    (C17_version3_scenario plainMarkers rootV3 [sampleLib] (by decide) rfl (by decide)
      (by decide)).imp (fun _ hs => ⟨hs.1, hs.2.2.1⟩)⟩

/-- Counterexample to claim C17 as stated. On the profile `rootV3` tagged with
version 4 the driver returns having invoked the upgraders for the targets 5 to
9 only: `libs` is still JSON text and the thread is still named `Content`
without `processType`. -/
theorem C17_counterexample :
    (rootV3.setVersion (some 4)).version = some 4 ∧
      (rootV3.setVersion (some 4)).libs.isEncoded = true ∧
      threadLabels (rootV3.setVersion (some 4)).threads = [("Content", none)] ∧
      (upgradeGeckoProfileToCurrentVersion plainMarkers (rootV3.setVersion (some 4))).thrown =
        none ∧
      (upgradeGeckoProfileToCurrentVersion plainMarkers (rootV3.setVersion (some 4))).invoked =
        [5, 6, 7, 8, 9] ∧
      (upgradeGeckoProfileToCurrentVersion plainMarkers
        (rootV3.setVersion (some 4))).profile.libs.isEncoded = true ∧
      threadLabels (upgradeGeckoProfileToCurrentVersion plainMarkers
        (rootV3.setVersion (some 4))).profile.threads = [("Content", none)] := by
  decide

/-! ## The shape of the process tree under upgraders 6 to 9 -/

/-- A thread loop whose body keeps the shape of a thread keeps the shapes of
the entries of `threads`, whether or not it throws. -/
theorem forEachThread_shape (body : Thread → Res Thread)
    (hbody : ∀ t, threadShape (body t).state = threadShape t) (ts : List ThreadEntry) :
    (forEachThread body ts).state.map entryShape = ts.map entryShape := by
  induction ts with
  | nil => rfl
  | cons e rest ih =>
    cases e with
    | encoded q => rfl
    | thread t =>
      simp only [forEachThread]
      split
      · simp [entryShape, hbody t]
      · simp [entryShape, hbody t, ih]

theorem convertSevenRows_length (stringTable : List String) (nameIndex dataIndex : Option Nat)
    (rows : List (List JVal)) :
    (convertSevenRows stringTable nameIndex dataIndex rows).state.length = rows.length := by
  induction rows with
  | nil => rfl
  | cons row rest ih =>
    simp only [convertSevenRows]
    split
    · rfl
    · split
      · split
        · rfl
        · simp [ih]
      · simp [ih]

theorem convertSixThread_shape (t : Thread) :
    threadShape (convertSixThread t).state = threadShape t := by
  simp [threadShape, convertSixThread]

theorem convertSevenThread_shape (t : Thread) :
    threadShape (convertSevenThread t).state = threadShape t := by
  simp [threadShape, convertSevenThread, convertSevenRows_length]

theorem convertEightThread_shape (t : Thread) :
    threadShape (convertEightThread t).state = threadShape t := by
  simp [threadShape, convertEightThread]

theorem convertNineThread_shape (cm : ConvertMarkers) (t : Thread) :
    threadShape (convertNineThread cm t).state = threadShape t := by
  simp [threadShape, convertNineThread]

theorem convertSix_shape :
    (∀ p : Profile, shape (convertToVersionSixRecursive p).state = shape p) ∧
    (∀ subs : List Profile,
      shapeOfList (convertSixEach subs).state = shapeOfList subs) := by
  apply processes_induction
  · intro m l ts ps pr ih
    have hts := forEachThread_shape convertSixThread convertSixThread_shape ts
    simp only [convertToVersionSixRecursive]
    split
    · simp only [shape, hts]
    · cases ps with
      | none => simp only [convertSixProcesses, shape, hts, shapeOfProcesses]
      | some subs => simp only [convertSixProcesses, shape, hts, shapeOfProcesses, ih subs rfl]
  · rfl
  · intro q rest ihq ihrest
    simp only [convertSixEach]
    split
    · simp only [shapeOfList, ihq]
    · simp only [shapeOfList, ihq, ihrest]

theorem convertSix_libs :
    (∀ p : Profile,
      ((convertToVersionSixRecursive p).state ::
          nested (convertToVersionSixRecursive p).state).map Profile.libs =
        (p :: nested p).map Profile.libs) ∧
    (∀ subs : List Profile,
      (nestedOfList (convertSixEach subs).state).map Profile.libs =
        (nestedOfList subs).map Profile.libs) := by
  apply processes_induction
  · intro m l ts ps pr ih
    simp only [convertToVersionSixRecursive]
    split
    · simp only [List.map_cons, libs_mk, nested]
    · cases ps with
      | none => simp only [convertSixProcesses, List.map_cons, libs_mk, nested]
      | some subs =>
        simp only [convertSixProcesses, List.map_cons, libs_mk, nested, nestedOfProcesses,
          ih subs rfl]
  · rfl
  · intro q rest ihq ihrest
    simp only [List.map_cons] at ihq
    simp only [convertSixEach]
    split
    · simp only [nestedOfList, List.map_cons, List.map_append]
      rw [List.cons.inj ihq |>.1, List.cons.inj ihq |>.2]
    · simp only [nestedOfList, List.map_cons, List.map_append]
      rw [List.cons.inj ihq |>.1, List.cons.inj ihq |>.2, ihrest]

theorem convertSeven_shape :
    (∀ p : Profile, shape (convertToVersionSevenRecursive p).state = shape p) ∧
    (∀ subs : List Profile,
      shapeOfList (convertSevenEach subs).state = shapeOfList subs) := by
  apply processes_induction
  · intro m l ts ps pr ih
    have hts := forEachThread_shape convertSevenThread convertSevenThread_shape ts
    simp only [convertToVersionSevenRecursive]
    split
    · simp only [shape, hts]
    · cases ps with
      | none => simp only [convertSevenProcesses, shape, hts, shapeOfProcesses]
      | some subs => simp only [convertSevenProcesses, shape, hts, shapeOfProcesses, ih subs rfl]
  · rfl
  · intro q rest ihq ihrest
    simp only [convertSevenEach]
    split
    · simp only [shapeOfList, ihq]
    · simp only [shapeOfList, ihq, ihrest]

theorem convertSeven_libs :
    (∀ p : Profile,
      ((convertToVersionSevenRecursive p).state ::
          nested (convertToVersionSevenRecursive p).state).map Profile.libs =
        (p :: nested p).map Profile.libs) ∧
    (∀ subs : List Profile,
      (nestedOfList (convertSevenEach subs).state).map Profile.libs =
        (nestedOfList subs).map Profile.libs) := by
  apply processes_induction
  · intro m l ts ps pr ih
    simp only [convertToVersionSevenRecursive]
    split
    · simp only [List.map_cons, libs_mk, nested]
    · cases ps with
      | none => simp only [convertSevenProcesses, List.map_cons, libs_mk, nested]
      | some subs =>
        simp only [convertSevenProcesses, List.map_cons, libs_mk, nested, nestedOfProcesses,
          ih subs rfl]
  · rfl
  · intro q rest ihq ihrest
    simp only [List.map_cons] at ihq
    simp only [convertSevenEach]
    split
    · simp only [nestedOfList, List.map_cons, List.map_append]
      rw [List.cons.inj ihq |>.1, List.cons.inj ihq |>.2]
    · simp only [nestedOfList, List.map_cons, List.map_append]
      rw [List.cons.inj ihq |>.1, List.cons.inj ihq |>.2, ihrest]

theorem convertEight_shape :
    (∀ p : Profile, shape (convertToVersionEightRecursive p).state = shape p) ∧
    (∀ subs : List Profile,
      shapeOfList (convertEightEach subs).state = shapeOfList subs) := by
  apply processes_induction
  · intro m l ts ps pr ih
    have hts := forEachThread_shape convertEightThread convertEightThread_shape ts
    simp only [convertToVersionEightRecursive]
    split
    · simp only [shape, hts]
    · cases ps with
      | none => simp only [convertEightProcesses, shape, hts, shapeOfProcesses]
      | some subs => simp only [convertEightProcesses, shape, hts, shapeOfProcesses, ih subs rfl]
  · rfl
  · intro q rest ihq ihrest
    simp only [convertEightEach]
    split
    · simp only [shapeOfList, ihq]
    · simp only [shapeOfList, ihq, ihrest]

theorem convertEight_libs :
    (∀ p : Profile,
      ((convertToVersionEightRecursive p).state ::
          nested (convertToVersionEightRecursive p).state).map Profile.libs =
        (p :: nested p).map Profile.libs) ∧
    (∀ subs : List Profile,
      (nestedOfList (convertEightEach subs).state).map Profile.libs =
        (nestedOfList subs).map Profile.libs) := by
  apply processes_induction
  · intro m l ts ps pr ih
    simp only [convertToVersionEightRecursive]
    split
    · simp only [List.map_cons, libs_mk, nested]
    · cases ps with
      | none => simp only [convertEightProcesses, List.map_cons, libs_mk, nested]
      | some subs =>
        simp only [convertEightProcesses, List.map_cons, libs_mk, nested, nestedOfProcesses,
          ih subs rfl]
  · rfl
  · intro q rest ihq ihrest
    simp only [List.map_cons] at ihq
    simp only [convertEightEach]
    split
    · simp only [nestedOfList, List.map_cons, List.map_append]
      rw [List.cons.inj ihq |>.1, List.cons.inj ihq |>.2]
    · simp only [nestedOfList, List.map_cons, List.map_append]
      rw [List.cons.inj ihq |>.1, List.cons.inj ihq |>.2, ihrest]

theorem convertNine_shape (cm : ConvertMarkers) :
    (∀ p : Profile, shape (convertToVersionNineRecursive cm p).state = shape p) ∧
    (∀ subs : List Profile,
      shapeOfList (convertNineEach cm subs).state = shapeOfList subs) := by
  apply processes_induction
  · intro m l ts ps pr ih
    have hts := forEachThread_shape (convertNineThread cm) (convertNineThread_shape cm) ts
    simp only [convertToVersionNineRecursive]
    split
    · simp only [shape, hts]
    · cases ps with
      | none => simp only [convertNineProcesses, shape, hts, shapeOfProcesses]
      | some subs => simp only [convertNineProcesses, shape, hts, shapeOfProcesses, ih subs rfl]
  · rfl
  · intro q rest ihq ihrest
    simp only [convertNineEach]
    split
    · simp only [shapeOfList, ihq]
    · simp only [shapeOfList, ihq, ihrest]

theorem convertNine_libs (cm : ConvertMarkers) :
    (∀ p : Profile,
      ((convertToVersionNineRecursive cm p).state ::
          nested (convertToVersionNineRecursive cm p).state).map Profile.libs =
        (p :: nested p).map Profile.libs) ∧
    (∀ subs : List Profile,
      (nestedOfList (convertNineEach cm subs).state).map Profile.libs =
        (nestedOfList subs).map Profile.libs) := by
  apply processes_induction
  · intro m l ts ps pr ih
    simp only [convertToVersionNineRecursive]
    split
    · simp only [List.map_cons, libs_mk, nested]
    · cases ps with
      | none => simp only [convertNineProcesses, List.map_cons, libs_mk, nested]
      | some subs =>
        simp only [convertNineProcesses, List.map_cons, libs_mk, nested, nestedOfProcesses,
          ih subs rfl]
  · rfl
  · intro q rest ihq ihrest
    simp only [List.map_cons] at ihq
    simp only [convertNineEach]
    split
    · simp only [nestedOfList, List.map_cons, List.map_append]
      rw [List.cons.inj ihq |>.1, List.cons.inj ihq |>.2]
    · simp only [nestedOfList, List.map_cons, List.map_append]
      rw [List.cons.inj ihq |>.1, List.cons.inj ihq |>.2, ihrest]

theorem threadShape_forall₂ (body : Thread → Res Thread)
    (hbody : ∀ t, threadShape (body t).state = threadShape t) (l : List Thread) :
    List.Forall₂
      (fun t t1 : Thread =>
        t1.name = t.name ∧ t1.stringTable = t.stringTable ∧
          t1.samples.data.length = t.samples.data.length ∧
          t1.markers.data.length = t.markers.data.length)
      l (l.map (fun t => (body t).state)) := by
  rw [List.forall₂_map_right_iff, List.forall₂_same]
  intro t _
  have h := hbody t
  simp only [threadShape, ThreadShape.mk.injEq] at h
  exact h

/-- Upgrader 7 returns on a profile in the version-6 shape whose marker rows
are well formed, and has run its thread body on every thread of the tree. -/
theorem convertSeven_returns (p : Profile) (h : structured p = true)
    (hwf : ∀ t ∈ allThreads p, markersWellFormed t = true) :
    (convertToVersionSevenRecursive p).thrown = none ∧
      allThreads (convertToVersionSevenRecursive p).state =
        (allThreads p).map (fun t => (convertSevenThread t).state) := by
  apply convertSeven_allThreads.1 p h
  intro t ht
  exact (convertSevenRows_spec t.stringTable (t.markers.schema.lookup "name")
    (t.markers.schema.lookup "data") t.markers.data
    (fun row hrow => List.all_eq_true.mp (hwf t ht) row hrow)).1

/-- Claim C21. Upgraders 6, 7, 8 and 9 preserve the shape of the process tree:
on every well-formed input each of them returns, and at the root and at every
nested subprocess profile the number and order of the entries of `threads` and
of `processes`, the name and the string table of each thread, the number of
rows of the `samples` and `markers` tables of each thread, and `libs` are
unchanged. -/
theorem C21_upgraders_preserve_shape (cm : ConvertMarkers) (p : Profile)
    (h : structured p = true) (hwf : ∀ t ∈ allThreads p, markersWellFormed t = true) :
    ∀ d u, 6 ≤ d → d ≤ 9 → _upgraders cm d = some u →
      (u p).thrown = none ∧
        shape (u p).state = shape p ∧
        ((u p).state :: nested (u p).state).map Profile.libs =
          (p :: nested p).map Profile.libs ∧
        List.Forall₂
          (fun t t1 : Thread =>
            t1.name = t.name ∧ t1.stringTable = t.stringTable ∧
              t1.samples.data.length = t.samples.data.length ∧
              t1.markers.data.length = t.markers.data.length)
          (allThreads p) (allThreads (u p).state) := by
  intro d u h6 h9 hu
  interval_cases d <;> simp only [_upgraders, Option.some.injEq] at hu <;> subst hu
  · obtain ⟨h1, h2⟩ := convertSix_allThreads.1 p h
    refine ⟨h1, convertSix_shape.1 p, convertSix_libs.1 p, ?_⟩
    rw [h2]
    exact threadShape_forall₂ convertSixThread convertSixThread_shape _
  · obtain ⟨h1, h2⟩ := convertSeven_returns p h hwf
    refine ⟨h1, convertSeven_shape.1 p, convertSeven_libs.1 p, ?_⟩
    rw [h2]
    exact threadShape_forall₂ convertSevenThread convertSevenThread_shape _
  · obtain ⟨h1, h2⟩ := convertEight_allThreads.1 p h (fun _ _ => rfl)
    refine ⟨h1, convertEight_shape.1 p, convertEight_libs.1 p, ?_⟩
    rw [h2]
    exact threadShape_forall₂ convertEightThread convertEightThread_shape _
  · obtain ⟨h1, h2⟩ := (convertNine_allThreads cm).1 p h (fun _ _ => rfl)
    refine ⟨h1, (convertNine_shape cm).1 p, (convertNine_libs cm).1 p, ?_⟩
    rw [h2]
    exact threadShape_forall₂ (convertNineThread cm) (convertNineThread_shape cm) _

/-- Claim C21 applied to the profile `rootV5`, which has one subprocess, and to
upgrader 7. -/
theorem C21_witness :
    structured rootV5 = true ∧ (∀ t ∈ allThreads rootV5, markersWellFormed t = true) ∧
      _upgraders plainMarkers 7 = some convertToVersionSevenRecursive ∧
      (convertToVersionSevenRecursive rootV5).thrown = none ∧
      shape (convertToVersionSevenRecursive rootV5).state = shape rootV5 ∧
      (allThreads (convertToVersionSevenRecursive rootV5).state).map threadShape =
        [threadShape sampleThread, threadShape sampleThread] :=
  ⟨by decide, by decide, rfl,
    (C21_upgraders_preserve_shape plainMarkers rootV5 (by decide) (by decide) 7
      convertToVersionSevenRecursive (by decide) (by decide) rfl).1,
    (C21_upgraders_preserve_shape plainMarkers rootV5 (by decide) (by decide) 7
      convertToVersionSevenRecursive (by decide) (by decide) rfl).2.1,
    by decide⟩

end GeckoVersioning
